import Mathlib

/-!
Verification development for the noop-discovery library.

The JavaScript sources are embedded shallowly:
* mutable JS objects become insertion-ordered association lists (`objGet` /
  `objSet` mirror property read / property write);
* callback-style results (`done(err)` / `done(null, value)`) become `Except`;
* a JS runtime exception that escapes a method (as opposed to an error passed
  to its callback) is a distinct `JSOutcome.thrown` outcome;
* reference sharing of `Resource` objects across components is modelled by
  keying resources by name in the application state, components keep the names.

Classes and functions keep their source names: `Component`, `Component.validate`,
`generateDockerfile` (lib/component.js), `Resource`, `Resource.register`,
`Resource.validate` (lib/resource.js), `Application`, `Application.discover`,
`Application.parseComponents`, `Application.checkIgnoreStatus` and the
`chokidar` "all" handler of `Application.setupWatch` (lib/app.js).
Parts of the repository that are not present under src/ (the directive parser,
lib/manifest.js, lib/route.js) and external collaborators (the gitignore
pattern matcher, JS numeric builtins) are modelled from the spec; each such
definition carries a doc comment saying so.
-/

/-- Insertion-ordered association list standing for a mutable JS object
(string-keyed map with insertion order preserved). -/
def objGet {κ α : Type} [DecidableEq κ] : List (κ × α) → κ → Option α
  | [], _ => none
  | kv :: rest, k => if kv.1 = k then some kv.2 else objGet rest k

/-- JS property write: update the first binding in place, else append. -/
def objSet {κ α : Type} [DecidableEq κ] (m : List (κ × α)) (k : κ) (v : α) :
    List (κ × α) :=
  match m with
  | [] => [(k, v)]
  | kv :: rest => if kv.1 = k then (k, v) :: rest else kv :: objSet rest k v

/-- JS `String.prototype.startsWith`, written over the character list so that
it evaluates by kernel reduction. -/
def strIsPrefixOf (pre s : String) : Bool :=
  pre.toList.isPrefixOf s.toList

/-- JS `s.slice(n)`, written over the character list. -/
def strDrop (s : String) (n : Nat) : String :=
  String.mk (s.toList.drop n)

/-- String length over the character list. -/
def strLength (s : String) : Nat :=
  s.toList.length

/-- JS `String.prototype.endsWith`, written over the character list. -/
def strEndsWith (s suf : String) : Bool :=
  suf.toList.isSuffixOf s.toList

/-- Split a character list on a separator character (used to model the
greedy `/^(.+)=(.+)$/` regex and path parsing). -/
def splitOnChar (c : Char) : List Char → List (List Char)
  | [] => [[]]
  | ch :: rest =>
    let r := splitOnChar c rest
    if ch = c then [] :: r
    else
      match r with
      | [] => [[ch]]
      | g :: gs => (ch :: g) :: gs

/-- Join character-list groups with a separator character. -/
def joinWithChar (c : Char) : List (List Char) → List Char
  | [] => []
  | [g] => g
  | g :: gs => g ++ c :: joinWithChar c gs

/-- Named parameters a parsed directive can carry.  The directive parser
(lib/directive.js) is not under src/; the fields are exactly those the code
under src/ reads from `directive.params` (COMPONENT name/type; ENV
key/defaultValue/secret; EXPOSE port; LIFECYCLE lifecycle; CPU/MEMORY units;
STATIC contentDirectory; RESOURCE name/type/setting), per spec section 4.1.
`none` stands for a JS `undefined` field. -/
structure Params where
  name : Option String := none
  type : Option String := none
  key : Option String := none
  defaultValue : Option String := none
  secret : Bool := false
  port : Option Nat := none
  lifecycle : Option String := none
  units : Option String := none
  contentDirectory : Option String := none
  setting : List String := []
deriving Repr, DecidableEq

/-- One parsed manifest statement (spec section 3): command token, positional
arguments, named parameters, verbatim raw text, source file and line. -/
structure Directive where
  cmd : String
  args : List String := []
  params : Params := {}
  raw : String := ""
  file : String := ""
  lineNumber : Nat := 0
deriving Repr, DecidableEq

/-- Value of one ENV variable: `{ default, secret }` (lib/component.js). -/
structure VarInfo where
  default : Option String := none
  secret : Bool := false
deriving Repr, DecidableEq

/-- Modelled from the spec: JS `parseFloat` restricted to the plain decimal
literals manifests use (optional `-`, digits, optional fraction); `none` is
`NaN`.  Only determinism matters for the theorems below. -/
def jsParseFloat (s : Option String) : Option Rat :=
  match s with
  | none => none
  | some s =>
    let (neg, s) := if s.startsWith "-" then (true, s.drop 1) else (false, s)
    let intPart := s.takeWhile Char.isDigit
    if intPart = "" then none
    else
      let rest := s.drop intPart.length
      let frac := if rest.startsWith "." then (rest.drop 1).takeWhile Char.isDigit else ""
      let num : Nat := intPart.toNat! * 10 ^ frac.length + (if frac = "" then 0 else frac.toNat!)
      let q : Rat := (num : Rat) / ((10 : Rat) ^ frac.length)
      some (if neg then -q else q)

/-- Modelled from the spec: JS `parseInt` restricted to plain decimal
literals; `none` is `NaN`. -/
def jsParseInt (s : Option String) : Option Int :=
  match s with
  | none => none
  | some s =>
    let (neg, s) := if s.startsWith "-" then (true, s.drop 1) else (false, s)
    let digits := s.takeWhile Char.isDigit
    if digits = "" then none
    else some (if neg then -(digits.toNat! : Int) else (digits.toNat! : Int))

/-- The `this.settings` object of a Component (lib/component.js).  `none`
means the key is absent.  For cpu/memory the inner `Option` is the parse
result (`none` = `NaN`). -/
structure CompSettings where
  port : Option Nat := none
  cpu : Option (Option Rat) := none
  memory : Option (Option Int) := none
  lifecycles : List (Option String) := []
  cron : Option Params := none
  contentDirectory : Option (Option String) := none
deriving Repr, DecidableEq

/-- Modelled from the spec: a Route (lib/route.js is not under src/).
Spec section 3: "Registration contract only" — a Route is owned by exactly one
Component and records its declaring directive; registration never fails. -/
structure Route where
  component : Option String
  directive : Directive
deriving Repr, DecidableEq

/-- One deployable unit (class Component, lib/component.js).  The `app` back
reference of the source is modelled by passing application state explicitly.
`resources` holds the names of the shared Resource objects (reference sharing
is modelled by keying resources by name in the application state).
`vars` is the source's `variables` field (`variables` is reserved in Lean). -/
structure Component where
  directives : List Directive
  rootPath : String
  name : Option String
  type : Option String
  vars : List (Option String × VarInfo)
  routes : List Route
  resources : List (Option String)
  dockerfile : String
  settings : CompSettings
deriving Repr, DecidableEq

/-- A named external dependency (class Resource, lib/resource.js). -/
structure Resource where
  name : Option String
  type : Option String
  settings : List (String × String)
  directives : List Directive
deriving Repr, DecidableEq

/-- Fatal discovery errors, structured by the `new ComponentError(...)` /
`new ResourceError(...)` sites; each constructor carries exactly the data the
source interpolates into the message. -/
inductive DError where
  /-- ComponentError: "Directive cmd not supported for type components
  [file:lineNumber]" (lib/component.js). -/
  | componentError (cmd : String) (ctype : Option String) (file : String) (lineNumber : Nat)
  /-- ResourceError: "Resource name already declared as type existing"
  (Resource.register). -/
  | resourceTypeConflict (rname : Option String) (existing : Option String)
  /-- ResourceError: "Unknown resource type type" (Resource.validate). -/
  | resourceUnknownType (rtype : Option String)
  /-- ResourceError: "Missing required resource setting key for resource name". -/
  | resourceMissingSetting (key : String) (rname : Option String)
  /-- ResourceError: "Invalid resource setting value value for key". -/
  | resourceInvalidValue (value : String) (key : String)
  /-- ResourceError: missing-type branch at the end of Resource.validate.
  Dead in the source: `resourceTypes[this.type]` is undefined for a falsy type
  so the earlier unknown-type branch always fires first (the source would in
  fact hit a ReferenceError on the bare `name` there). -/
  | resourceMissingType (rname : Option String)
deriving Repr, DecidableEq

/-- Outcome of calling a JS method that takes a callback: either a runtime
exception escaped the method (`thrown`), or the callback was invoked with an
error or a value. -/
inductive JSOutcome (α : Type) where
  | thrown
  | value (a : α)
deriving Repr, DecidableEq

/-- The `types` table of lib/component.js: allowed directives per component
type.  Written with `if` so that facts about unknown type strings are
provable; an unknown type yields `none` (JS `undefined`). -/
def typesAllowedDirectives (t : Option String) : Option (List String) :=
  match t with
  | none => none
  | some t =>
    if t = "service" then
      some ["ROUTE", "RESOURCE", "ENV", "SPECIAL", "EXPOSE", "FROM", "COPY", "ADD",
            "RUN", "WORKDIR", "ENTRYPOINT", "CMD", "USER", "CPU", "MEMORY"]
    else if t = "task" then
      some ["LIFECYCLE", "CRON", "RESOURCE", "ENV", "FROM", "COPY", "ADD",
            "RUN", "WORKDIR", "ENTRYPOINT", "CMD", "USER", "CPU", "MEMORY"]
    else if t = "static" then
      some ["ROUTE", "FROM", "COPY", "ADD", "RUN", "WORKDIR", "ENTRYPOINT",
            "USER", "ASSETS"]
    else none

/-- JS `String.prototype.replace` with a string pattern: replaces the first
occurrence only. -/
def jsReplaceFirst (s pat repl : String) : String :=
  match s.splitOn pat with
  | [] => s
  | [_] => s
  | a :: b :: rest => a ++ repl ++ String.intercalate pat (b :: rest)

/-- The regex `/^TEST .+/` of generateDockerfile, on a single-line string:
the raw text is "TEST " followed by at least one character — the two-field
form "TEST args". -/
def matchesTestForm (raw : String) : Bool :=
  strIsPrefixOf "TEST " raw && strDrop raw 5 ≠ ""

/-- The body of the `switch` in generateDockerfile (lib/component.js):
append one directive's contribution to the accumulated build text. -/
def generateDockerfileStep (dockerfile : String) (directive : Directive) : String :=
  if directive.cmd = "FROM" then dockerfile ++ directive.raw ++ "\n"
  else if directive.cmd = "RUN" then dockerfile ++ directive.raw ++ "\n"
  else if directive.cmd = "COPY" then dockerfile ++ directive.raw ++ "\n"
  else if directive.cmd = "ENTRYPOINT" then dockerfile ++ directive.raw ++ "\n"
  else if directive.cmd = "CMD" then dockerfile ++ directive.raw ++ "\n"
  else if directive.cmd = "WORKDIR" then dockerfile ++ directive.raw ++ "\n"
  else if directive.cmd = "USER" then dockerfile ++ directive.raw ++ "\n"
  else if directive.cmd = "ENV" then dockerfile ++ directive.raw ++ "\n"
  else if directive.cmd = "ADD" then dockerfile ++ directive.raw ++ "\n"
  else if directive.cmd = "TEST" then
    if matchesTestForm directive.raw then
      dockerfile ++ jsReplaceFirst directive.raw "TEST" "CMD" ++ "\n"
    else dockerfile
  else dockerfile

/-- generateDockerfile (lib/component.js): pass the raw text of build
directives through verbatim in order; a TEST directive matching `/^TEST .+/`
is included with its first "TEST" replaced by "CMD". -/
def generateDockerfile (directives : List Directive) : String :=
  directives.foldl generateDockerfileStep ""

/-- The Component constructor (lib/component.js): name and type come from the
first directive's params, the dockerfile is generated eagerly, and settings
get per-type defaults (service: port 80, cpu 0.1, memory 128; task: cpu 0.1,
memory 128; static: none). -/
def mkComponent (directives : List Directive) (rootPath : String) : Component :=
  let t : Option String := directives.head?.bind (·.params.type)
  { directives := directives
    rootPath := rootPath
    name := directives.head?.bind (·.params.name)
    type := t
    vars := []
    routes := []
    resources := []
    dockerfile := generateDockerfile directives
    settings :=
      if t = some "service" then
        { port := some 80, cpu := some (some ((1 : Rat) / 10)), memory := some (some 128) }
      else if t = some "task" then
        { cpu := some (some ((1 : Rat) / 10)), memory := some (some 128) }
      else {} }

/-- The `resourceTypes` schema table (lib/resource.js) as a list of
(key, required, enum) entries in the source's key order. -/
structure SettingSchema where
  key : String
  required : Bool := false
  enumVals : Option (List String) := none
deriving Repr, DecidableEq

/-- `resourceTypes[type]` (lib/resource.js): s3, mysql and postgresql have an
empty settings schema; dynamodb requires hashKeyName and hashKeyType (enum
S/N/B) and optionally takes rangeKeyName and rangeKeyType (enum S/N/B).
Any other (or missing) type is `none` (JS `undefined`). -/
def resourceTypesSettings (t : Option String) : Option (List SettingSchema) :=
  match t with
  | none => none
  | some t =>
    if t = "s3" then some []
    else if t = "mysql" then some []
    else if t = "dynamodb" then
      some [{ key := "hashKeyName", required := true },
            { key := "hashKeyType", required := true, enumVals := some ["S", "N", "B"] },
            { key := "rangeKeyName" },
            { key := "rangeKeyType", enumVals := some ["S", "N", "B"] }]
    else if t = "postgresql" then some []
    else none

/-- JS truthiness of a possibly-absent string: present and nonempty. -/
def jsTruthy (v : Option String) : Bool :=
  match v with
  | none => false
  | some s => s ≠ ""

/-- The regex `/^(.+)=(.+)$/` applied to one `setting=key=value` payload:
both groups greedy, so the string splits at its last "=" with both sides
nonempty. -/
def parseSettingKV (s : String) : Option (String × String) :=
  match (splitOnChar '=' s.toList).reverse with
  | value :: k :: ks =>
    let key := joinWithChar '=' (k :: ks).reverse
    if key = [] ∨ value = [] then none
    else some (String.mk key, String.mk value)
  | _ => none

/-- One iteration of the settings-merge loop in Resource.validate: a
malformed payload is skipped, a key outside the type's schema is skipped, a
value equal to the recorded one is a no-op, a differing value for a truthy
recorded one only logs a conflict (first write wins), otherwise the value is
recorded. -/
def applySetting (props : List SettingSchema) (settings : List (String × String))
    (s : String) : List (String × String) :=
  match parseSettingKV s with
  | none => settings
  | some (key, value) =>
    if ¬ (props.any (fun sch => sch.key = key)) then settings
    else if objGet settings key = some value then settings
    else if jsTruthy (objGet settings key) then settings
    else objSet settings key value

/-- The full settings-merge pass of Resource.validate: every contributing
directive's `setting` payloads are folded into the resource's settings. -/
def mergeDirectiveSettings (props : List SettingSchema) (directives : List Directive)
    (settings : List (String × String)) : List (String × String) :=
  directives.foldl (fun st d => d.params.setting.foldl (applySetting props) st) settings

/-- One iteration of the schema-check loop of Resource.validate: a required
key whose merged value is falsy reports the missing setting (and skips the
enum check, as the source `return`s); a present, nonempty value outside the
key's enum reports an invalid value.  The source guards the enum check with
`this.settings[paramName] && param.enum && indexOf === -1`; the conjunction
is rendered with the enum tested first, which is logically identical. -/
def resourceSettingCheck (settings : List (String × String)) (rname : Option String)
    (sch : SettingSchema) : Option DError :=
  if sch.required ∧ ¬ jsTruthy (objGet settings sch.key) then
    some (.resourceMissingSetting sch.key rname)
  else
    match sch.enumVals with
    | none => none
    | some es =>
      match objGet settings sch.key with
      | some v => if v ≠ "" ∧ v ∉ es then some (.resourceInvalidValue v sch.key) else none
      | none => none

/-- Resource.validate (lib/resource.js): unknown (or missing) type fails;
otherwise all contributing directives' settings are merged into the resource
(a persistent mutation, hence the returned Resource), then the type's schema
is checked in order and the first error, if any, is reported. -/
def Resource.validate (r : Resource) : Resource × Option DError :=
  match resourceTypesSettings r.type with
  | none => (r, some (.resourceUnknownType r.type))
  | some props =>
    let merged := { r with settings := mergeDirectiveSettings props r.directives r.settings }
    let errors : List DError := props.filterMap (resourceSettingCheck merged.settings r.name)
    if r.type = none then (merged, some (.resourceMissingType r.name))
    else (merged, errors.head?)

/-- The object Resource.register works on: the existing resource for the
directive's name (or a fresh one on first declaration) with the directive
pushed onto it. -/
def registerMerge (r? : Option Resource) (d : Directive) : Resource :=
  let r := r?.getD { name := d.params.name, type := none, settings := [], directives := [] }
  { r with directives := r.directives ++ [d] }

/-- Resource.register (lib/resource.js): look the name up in the graph-wide
resource map, creating a fresh Resource on first declaration; push the
directive onto the shared object; adopt the directive's type if none is
recorded yet; a differing type is a fatal ResourceError (the already-mutated
map is returned as in the source, where the mutation precedes the error —
discovery aborts on the error so it is never observed). -/
def Resource.register (resources : List (Option String × Resource)) (d : Directive) :
    List (Option String × Resource) × Except DError Resource :=
  let name := d.params.name
  let r := registerMerge (objGet resources name) d
  if r.type = none ∧ d.params.type ≠ none then
    let r := { r with type := d.params.type }
    (objSet resources name r, .ok r)
  else if r.type ≠ none ∧ d.params.type ≠ none ∧ r.type ≠ d.params.type then
    (objSet resources name r, .error (.resourceTypeConflict name r.type))
  else
    (objSet resources name r, .ok r)

/-- Folding Resource.register over a component's RESOURCE directives,
aborting on the first error (the `async.map` of Component.validate). -/
def registerResources (ds : List Directive) (resources : List (Option String × Resource)) :
    Except DError (List (Option String × Resource)) :=
  match ds with
  | [] => .ok resources
  | d :: rest =>
    match Resource.register resources d with
    | (m, .ok _) => registerResources rest m
    | (_, .error e) => .error e

/-- Per-name view of a run of Resource.register restricted to the directives
naming one resource; used to reason about `registerResources` key by key. -/
def registerOneName (ds : List Directive) (r? : Option Resource) :
    Except DError (Option Resource) :=
  match ds with
  | [] => .ok r?
  | d :: rest =>
    let r := registerMerge r? d
    if r.type = none ∧ d.params.type ≠ none then
      registerOneName rest (some { r with type := d.params.type })
    else if r.type ≠ none ∧ d.params.type ≠ none ∧ r.type ≠ d.params.type then
      .error (.resourceTypeConflict d.params.name r.type)
    else
      registerOneName rest (some r)

/-- The ENV pass of Component.validate: collect ENV directives into the
variables map. -/
def applyEnvDirectives (c : Component) : Component :=
  let newVars := (c.directives.filter (fun d => d.cmd = "ENV")).foldl
    (fun m d =>
      objSet m d.params.key { default := d.params.defaultValue, secret := d.params.secret })
    c.vars
  { c with vars := newVars }

/-- One directive's settings side effects in the main pass of
Component.validate (EXPOSE, LIFECYCLE, CRON, CPU, MEMORY, STATIC). -/
def applyDirectiveSettings (st : CompSettings) (d : Directive) : CompSettings :=
  let st := if d.cmd = "EXPOSE" then { st with port := d.params.port } else st
  let st := if d.cmd = "LIFECYCLE" then
      { st with lifecycles := st.lifecycles ++ [d.params.lifecycle] } else st
  let st := if d.cmd = "CRON" then { st with cron := some d.params } else st
  let st := if d.cmd = "CPU" then { st with cpu := some (jsParseFloat d.params.units) } else st
  let st := if d.cmd = "MEMORY" then
      { st with memory := some (jsParseInt d.params.units) } else st
  if d.cmd = "STATIC" then { st with contentDirectory := some d.params.contentDirectory } else st

/-- Modelled from the spec: Route.register (lib/route.js is not under src/).
Registration contract only (spec sections 3 and 4.2): each ROUTE directive
yields a Route owned by the component; registration never fails. -/
def routesOf (c : Component) : List Route :=
  (c.directives.filter (fun d => d.cmd = "ROUTE")).map
    (fun d => { component := c.name, directive := d })

/-- A directive violates the legality check when its command is outside the
type's allowed set; COMPONENT itself is always tolerated. -/
def violatesLegality (allowed : List String) (d : Directive) : Bool :=
  ¬ (d.cmd ∈ allowed) ∧ d.cmd ≠ "COMPONENT"

/-- The component-fields part of a successful Component.validate: collect ENV
variables, apply the settings side effects, and record the built routes and
the names of the registered (shared) resources. -/
def componentUpdate (c : Component) : Component :=
  let c := applyEnvDirectives c
  let c := { c with settings := c.directives.foldl applyDirectiveSettings c.settings }
  { c with
    routes := routesOf c
    resources := (c.directives.filter (fun d => d.cmd = "RESOURCE")).map (·.params.name) }

/-- The application-level state Component.validate touches: the graph-wide
resource map and route list. -/
structure BuildState where
  resources : List (Option String × Resource)
  routes : List Route
deriving Repr, DecidableEq

/-- The route/resource build stage at the end of Component.validate
(the `async.auto` block): build Routes, register Resources; either failure
aborts the component's validation with that error. -/
def buildRoutesAndResources (c : Component) (bs : BuildState) :
    Except DError (Component × BuildState) :=
  match registerResources (c.directives.filter (fun d => d.cmd = "RESOURCE")) bs.resources with
  | .error e => .error e
  | .ok m => .ok (c, { resources := m, routes := bs.routes ++ routesOf c })

/-- Component.validate (lib/component.js).  The ENV pass and settings side
effects always run; the legality check dereferences
`types[this.type].allowedDirectives`, so a component whose declared type is
not in the types table throws a TypeError on its first directive instead of
reaching the callback (`JSOutcome.thrown`); the first illegal directive is
reported as a ComponentError before any route/resource is built; otherwise
routes and resources are built and the updated component returned. -/
def Component.validate (c : Component) (bs : BuildState) :
    JSOutcome (Except DError (Component × BuildState)) :=
  match typesAllowedDirectives c.type with
  | none =>
    if c.directives = [] then .value (buildRoutesAndResources (componentUpdate c) bs)
    else .thrown
  | some allowed =>
    match (c.directives.filter (violatesLegality allowed)).head? with
    | some d => .value (.error (.componentError d.cmd c.type d.file d.lineNumber))
    | none => .value (buildRoutesAndResources (componentUpdate c) bs)

/-- The aggregate root (class Application, lib/app.js).  `ignoring` maps an
ignore-file path to its patterns; `watching` maps a component root directory
to per-component inclusion patterns (Application.parseComponents). -/
structure Application where
  rootPath : String := ""
  components : List (Option String × Component) := []
  resources : List (Option String × Resource) := []
  routes : List Route := []
  manifests : List String := []
  ignoring : List (String × List String) := []
  watching : List (String × List (Option String × List String)) := []
deriving Repr, DecidableEq

/-- `path.parse(p).base`: the substring after the last "/". -/
def baseName (p : String) : String :=
  String.mk ((p.toList.reverse.takeWhile (fun c => c ≠ '/')).reverse)

/-- `path.parse(p).dir`: the substring before the last "/" (empty when the
path has no "/"). -/
def dirName (p : String) : String :=
  let pre := (p.toList.reverse.dropWhile (fun c => c ≠ '/')).reverse
  if pre = ['/'] then "/" else String.mk pre.dropLast

/-- A discovery run either completes, calls back with a fatal error, or dies
on a JS runtime exception escaping Component.validate. -/
inductive DiscoverFailure where
  | thrown
  | err (e : DError)
deriving Repr, DecidableEq

/-- Modelled from the spec: one manifest file as input to discovery — its
path and its already-parsed ordered directives (the directive parser and the
filesystem scanner are outside src/, spec sections 2 and 4.1). -/
structure ManifestInput where
  filePath : String
  directives : List Directive
deriving Repr, DecidableEq

/-- Modelled from the spec: the component grouping of lib/manifest.js (not
under src/).  Spec section 3: "a file may declare multiple Components, each
starting at a COMPONENT directive and extending to the next one or end of
file"; directives before the first COMPONENT belong to no component. -/
def groupBlocks : List Directive → Option (List Directive) → List (List Directive)
  | [], none => []
  | [], some cur => [cur.reverse]
  | d :: rest, none =>
    if d.cmd = "COMPONENT" then groupBlocks rest (some [d])
    else groupBlocks rest none
  | d :: rest, some cur =>
    if d.cmd = "COMPONENT" then cur.reverse :: groupBlocks rest (some [d])
    else groupBlocks rest (some (d :: cur))

/-- The (name, component) pairs one discovery pass constructs, in manifest
and block order; each component's root is its manifest's directory. -/
def blockPairs (tree : List ManifestInput) : List (Option String × Component) :=
  tree.flatMap (fun m =>
    (groupBlocks m.directives none).map (fun block =>
      let c := mkComponent block (dirName m.filePath)
      (c.name, c)))

/-- Write a list of (key, value) pairs into a JS object in order. -/
def objSetAll {κ α : Type} [DecidableEq κ] (m : List (κ × α)) (pairs : List (κ × α)) :
    List (κ × α) :=
  pairs.foldl (fun m kv => objSet m kv.1 kv.2) m

/-- The parseManifests stage of Application.discover: each manifest is pushed
onto `manifests` and its component blocks are written into `components`,
keyed by name (a later block with the same name overwrites). -/
def parseManifests (tree : List ManifestInput) (app : Application) : Application :=
  { app with
    manifests := app.manifests ++ tree.map (·.filePath)
    components := objSetAll app.components (blockPairs tree) }

/-- The validateComponents stage of Application.discover: validate every
component in insertion order, threading the graph-wide resource map and
route list; the first failure aborts discovery. -/
def validateComponents : List (Option String × Component) → BuildState →
    Except DiscoverFailure (List (Option String × Component) × BuildState)
  | [], bs => .ok ([], bs)
  | (k, c) :: rest, bs =>
    match Component.validate c bs with
    | .thrown => .error .thrown
    | .value (.error e) => .error (.err e)
    | .value (.ok (c', bs')) =>
      match validateComponents rest bs' with
      | .error f => .error f
      | .ok (rest', bs'') => .ok ((k, c') :: rest', bs'')

/-- The validateResources stage of Application.discover: validate every
resource in insertion order (each validation persists its settings merge);
the first error aborts discovery. -/
def validateResources : List (Option String × Resource) →
    Except DiscoverFailure (List (Option String × Resource))
  | [] => .ok []
  | (k, r) :: rest =>
    match Resource.validate r with
    | (_, some e) => .error (.err e)
    | (r', none) =>
      match validateResources rest with
      | .error f => .error f
      | .ok rest' => .ok ((k, r') :: rest')

/-- Application.discover (lib/app.js), non-watch mode, as a pure state
transformer over an already-scanned manifest tree: parse manifests into
components, validate every component, validate every resource; each stage
runs only after the previous one completed and any failure aborts the call.
Note that `components`, `resources` and `manifests` are NOT reset — only
`reload()` does that. -/
def Application.discover (app : Application) (tree : List ManifestInput) :
    Except DiscoverFailure Application :=
  let app := parseManifests tree app
  match validateComponents app.components { resources := app.resources, routes := app.routes } with
  | .error f => .error f
  | .ok (comps, bs) =>
    match validateResources bs.resources with
    | .error f => .error f
    | .ok res =>
      .ok { app with components := comps, resources := res, routes := bs.routes }

/-- Modelled from the spec: the external gitignore-style pattern matcher
(the `ignore` npm package, spec sections 2 and 6 — "given patterns + a
relative path, answers included/excluded with gitignore semantics").
It covers the pattern forms this development exercises: "*" matches every
path; a "*.ext" pattern matches any path whose base name ends in ".ext"; any
other pattern matches the path itself or anything under it taken as a literal
anchored prefix. -/
def igMatchesOne (pat p : String) : Bool :=
  if pat = "*" then true
  else if strIsPrefixOf "*." pat then strEndsWith (baseName p) (strDrop pat 1)
  else pat = p || strIsPrefixOf (pat ++ "/") p

/-- `ig.ignores(path)` over a scope's pattern set. -/
def igIgnores (pats : List String) (p : String) : Bool :=
  pats.any (fun pat => igMatchesOne pat p)

/-- JS `Set.prototype.add`: append if absent, keep insertion order. -/
def setAdd (l : List String) (s : String) : List String :=
  if s ∈ l then l else l ++ [s]

/-- Application.parseComponents (lib/app.js): derive a component's watch
scope from the sources of its two-argument ADD/COPY directives; a bare "."
source sets `copyAll`; the scope is stored under the component's root path —
but only when `files` is nonempty (`if (files.size)`), so a component whose
only source argument is "." registers no scope at all. -/
def Application.parseComponents (app : Application) (c : Component) : Application :=
  let acc := c.directives.foldl
    (fun (acc : List String × Bool) d =>
      if (d.cmd = "ADD" ∨ d.cmd = "COPY") ∧ d.args.length = 2 then
        if acc.2 then acc
        else
          match d.args.head? with
          | some a => if a = "." then (acc.1, true) else (setAdd acc.1 a, acc.2)
          | none => acc
      else acc)
    ([], false)
  let files := acc.1
  let copyAll := acc.2
  if files ≠ [] then
    let pats := if copyAll then ["*"] else files
    match objGet app.watching c.rootPath with
    | some inner => { app with watching := objSet app.watching c.rootPath (objSet inner c.name pats) }
    | none => { app with watching := objSet app.watching c.rootPath [(c.name, pats)] }
  else app

/-- Whether `needle` occurs in `hay` as a contiguous run (JS
`String.prototype.includes`). -/
def listHasRun {α : Type} [DecidableEq α] (hay needle : List α) : Bool :=
  needle.isPrefixOf hay ||
    match hay with
    | [] => false
    | _ :: t => listHasRun t needle

/-- JS `file.includes(needle)`. -/
def jsIncludes (needle hay : String) : Bool :=
  listHasRun hay.toList needle.toList

/-- Application.checkIgnoreStatus (lib/app.js): the chokidar `ignored`
predicate.  Anything under .git is ignored; the root and any Noopfile are
never ignored; then ignore scopes are consulted BEFORE watch scopes — a path
matching an ignore scope is ignored even if a watch scope includes it; a path
in no watch scope is ignored too. -/
def Application.checkIgnoreStatus (app : Application) (file : String) : Bool :=
  if jsIncludes "/.git/" file then true
  else if file = app.rootPath ∨ baseName file = "Noopfile" then false
  else if app.ignoring.any (fun kv =>
      let keyDir := dirName kv.1 ++ "/"
      strIsPrefixOf keyDir file ∧ igIgnores kv.2 (strDrop file (strLength keyDir))) then true
  else if app.watching.any (fun kv =>
      strIsPrefixOf kv.1 file ∧ kv.2.any (fun comp =>
        igIgnores comp.2 (strDrop file (strLength kv.1)))) then false
  else true

/-- Events the watch engine emits. -/
inductive WatchEmit where
  | manifestChange (file : String)
  | componentChange (component : Option String) (file : String)
deriving Repr, DecidableEq

/-- The `.on('all')` handler installed by Application.setupWatch
(lib/app.js): a path whose base name is Noopfile, .gitignore or .dockerignore
emits manifestChange and nothing else; otherwise every watch scope whose
directory prefixes the path is tested against the path relative to that
directory, and one componentChange is emitted per matching component (the
source pushes `this.components[component]` and emits its `.name`; components
are keyed by name, so the emitted name is the scope's component key). -/
def handleWatchEvent (app : Application) (file : String) : List WatchEmit :=
  if baseName file = "Noopfile" ∨ baseName file = ".gitignore" ∨ baseName file = ".dockerignore" then
    [.manifestChange file]
  else
    app.watching.foldl
      (fun acc kv =>
        if strIsPrefixOf kv.1 file then
          acc ++
            (kv.2.filter (fun comp =>
              igIgnores comp.2 (strDrop file (strLength kv.1)))).map
              (fun comp => WatchEmit.componentChange comp.1 file)
        else acc)
      []

/-- The composed watch path for one raw filesystem event: chokidar only
delivers events for paths its `ignored` predicate (checkIgnoreStatus)
accepts; delivered events go through the `.on('all')` handler. -/
def watchEmitsFor (app : Application) (file : String) : List WatchEmit :=
  if app.checkIgnoreStatus file then [] else handleWatchEvent app file

/-- Spec-side description of one directive's contribution to the build text
(spec section 4.1): FROM, RUN, COPY, ADD, ENTRYPOINT, CMD, WORKDIR, USER and
ENV pass their raw text through verbatim; a TEST directive contributes its
raw text with the leading "TEST" rewritten to "CMD" exactly when the raw text
has the two-field form "TEST args"; every other directive contributes
nothing. -/
def dockerfileLine (d : Directive) : String :=
  if d.cmd ∈ ["FROM", "RUN", "COPY", "ADD", "ENTRYPOINT", "CMD", "WORKDIR", "USER", "ENV"] then
    d.raw ++ "\n"
  else if d.cmd = "TEST" then
    if matchesTestForm d.raw then jsReplaceFirst d.raw "TEST" "CMD" ++ "\n" else ""
  else ""

/-- Concatenation of a list of strings in order. -/
def concatAll (l : List String) : String :=
  l.foldl (fun a b => a ++ b) ""

/-- The value of the last write to key `k` in a list of (key, value) pairs. -/
def lastWrite {κ α : Type} [DecidableEq κ] : List (κ × α) → κ → Option α
  | [], _ => none
  | kv :: rest, k =>
    match lastWrite rest k with
    | some v => some v
    | none => if kv.1 = k then some kv.2 else none

/-- The first declared type among a run of RESOURCE directives. -/
def firstDirectiveType : List Directive → Option String
  | [] => none
  | d :: rest =>
    match d.params.type with
    | some t => some t
    | none => firstDirectiveType rest

/-- The RESOURCE directives processed by the validateComponents stage, in
component and directive order. -/
def resourceStream (list : List (Option String × Component)) : List Directive :=
  list.flatMap (fun kv => kv.2.directives.filter (fun d => d.cmd = "RESOURCE"))

/-- Attribution scenario of the spec (sections 4.5 and 8): component A rooted
at /app/api declaring only `ADD . .`. -/
def exComponentA : Component :=
  mkComponent
    [{ cmd := "COMPONENT", args := ["A", "service"],
       params := { name := some "A", type := some "service" },
       raw := "COMPONENT A service", file := "/app/api/Noopfile", lineNumber := 1 },
     { cmd := "ADD", args := [".", "."], raw := "ADD . .",
       file := "/app/api/Noopfile", lineNumber := 2 }]
    "/app/api"

/-- Attribution scenario: component B rooted at /app/web declaring
`ADD ./src ./src`. -/
def exComponentB : Component :=
  mkComponent
    [{ cmd := "COMPONENT", args := ["B", "service"],
       params := { name := some "B", type := some "service" },
       raw := "COMPONENT B service", file := "/app/web/Noopfile", lineNumber := 1 },
     { cmd := "ADD", args := ["./src", "./src"], raw := "ADD ./src ./src",
       file := "/app/web/Noopfile", lineNumber := 2 }]
    "/app/web"

/-- The application state the watch engine derives for the attribution
scenario: parseComponents applied to components A and B in order. -/
def exWatchApp : Application :=
  (({ rootPath := "/app" } : Application).parseComponents exComponentA).parseComponents
    exComponentB

/-- A one-manifest tree: a service component declaring one mysql resource;
used to exercise repeated discovery. -/
def exTree : List ManifestInput :=
  [{ filePath := "/a/Noopfile"
     directives :=
       [{ cmd := "COMPONENT", args := ["api", "service"],
          params := { name := some "api", type := some "service" },
          raw := "COMPONENT api service", file := "/a/Noopfile", lineNumber := 1 },
        { cmd := "RESOURCE",
          params := { name := some "db", type := some "mysql" },
          raw := "RESOURCE name=db type=mysql", file := "/a/Noopfile", lineNumber := 2 }] }]

/-- The graph after one discovery of `exTree` from a fresh application. -/
def exRun1 : Application :=
  (Application.discover {} exTree).toOption.getD {}

/-- The graph after a second discovery of `exTree`, without a reload. -/
def exRun2 : Application :=
  (exRun1.discover exTree).toOption.getD {}

/-- A component whose directives are all legal for its service type but whose
two RESOURCE directives declare the same name with different types. -/
def exConflictComponent : Component :=
  mkComponent
    [{ cmd := "COMPONENT", args := ["api", "service"],
       params := { name := some "api", type := some "service" },
       raw := "COMPONENT api service", file := "/a/Noopfile", lineNumber := 1 },
     { cmd := "RESOURCE",
       params := { name := some "db", type := some "mysql" },
       raw := "RESOURCE name=db type=mysql", file := "/a/Noopfile", lineNumber := 2 },
     { cmd := "RESOURCE",
       params := { name := some "db", type := some "postgresql" },
       raw := "RESOURCE name=db type=postgresql", file := "/a/Noopfile", lineNumber := 3 }]
    "/a"

/-- An application with a root ignore scope excluding `*.log` and a blanket
watch scope: the ignore-precedence scenario of spec section 8. -/
def exIgnoreApp : Application :=
  { rootPath := "/app"
    ignoring := [("/app/.gitignore", ["*.log"])]
    watching := [("/app", [(some "A", ["*"])])] }

/-- A RESOURCE directive declaring db as mysql. -/
def exResDir1 : Directive :=
  { cmd := "RESOURCE", params := { name := some "db", type := some "mysql" },
    raw := "RESOURCE name=db type=mysql", file := "/a/Noopfile", lineNumber := 2 }

/-- A later RESOURCE directive for db with no type. -/
def exResDir2 : Directive :=
  { cmd := "RESOURCE", params := { name := some "db" },
    raw := "RESOURCE name=db", file := "/b/Noopfile", lineNumber := 5 }

/-- A RESOURCE directive declaring db as postgresql (type conflict). -/
def exResDirPg : Directive :=
  { cmd := "RESOURCE", params := { name := some "db", type := some "postgresql" },
    raw := "RESOURCE name=db type=postgresql", file := "/b/Noopfile", lineNumber := 6 }

/-- The resource created by the first db declaration. -/
def exResDb : Resource :=
  { name := some "db", type := some "mysql", settings := [], directives := [exResDir1] }

/-- A one-resource graph map holding db. -/
def exResMap : List (Option String × Resource) := [(some "db", exResDb)]

/-- A dynamodb resource with no settings at all. -/
def exDynMissing : Resource :=
  { name := some "t", type := some "dynamodb", settings := [], directives := [] }

/-- A dynamodb resource whose hash-key type is outside the enum. -/
def exDynInvalid : Resource :=
  { name := some "t", type := some "dynamodb",
    settings := [("hashKeyName", "id"), ("hashKeyType", "X")], directives := [] }

/-- A RESOURCE directive carrying valid dynamodb settings payloads. -/
def exDynDir : Directive :=
  { cmd := "RESOURCE",
    params := { name := some "t", type := some "dynamodb",
                setting := ["hashKeyName=id", "hashKeyType=S"] },
    raw := "RESOURCE name=t type=dynamodb setting=hashKeyName=id setting=hashKeyType=S",
    file := "/a/Noopfile", lineNumber := 3 }

/-- A dynamodb resource whose settings come entirely from its contributing
directive, exercising the merge-then-validate order. -/
def exDynOk : Resource :=
  { name := some "t", type := some "dynamodb", settings := [], directives := [exDynDir] }

/-- A resource with no type at all. -/
def exNoTypeResource : Resource :=
  { name := some "t", type := none, settings := [], directives := [] }

/-- A bare legal service component. -/
def exLegalComponent : Component :=
  mkComponent
    [{ cmd := "COMPONENT", args := ["api", "service"],
       params := { name := some "api", type := some "service" },
       raw := "COMPONENT api service", file := "/a/Noopfile", lineNumber := 1 }]
    "/a"

/-- A service component with one directive (LIFECYCLE) outside the service
allowed set. -/
def exIllegalComponent : Component :=
  mkComponent
    [{ cmd := "COMPONENT", args := ["api", "service"],
       params := { name := some "api", type := some "service" },
       raw := "COMPONENT api service", file := "/a/Noopfile", lineNumber := 1 },
     { cmd := "LIFECYCLE", args := ["build"],
       params := { lifecycle := some "build" },
       raw := "LIFECYCLE build", file := "/a/Noopfile", lineNumber := 2 }]
    "/a"

/-! ## Basic lemmas about the JS object model -/

theorem objGet_objSet_self {κ α : Type} [DecidableEq κ] (m : List (κ × α)) (k : κ) (v : α) :
    objGet (objSet m k v) k = some v := by
  induction m with
  | nil => simp [objGet, objSet]
  | cons kv rest ih =>
    by_cases h : kv.1 = k
    · simp [objSet, h, objGet]
    · simp [objSet, h, objGet, ih]

theorem objGet_objSet_ne {κ α : Type} [DecidableEq κ] (m : List (κ × α)) (k k' : κ) (v : α)
    (h : k' ≠ k) : objGet (objSet m k v) k' = objGet m k' := by
  induction m with
  | nil => simp [objGet, objSet, Ne.symm h]
  | cons kv rest ih =>
    by_cases hk : kv.1 = k
    · subst hk
      simp only [objSet, if_pos rfl, objGet, if_neg (Ne.symm h)]
    · simp only [objSet, if_neg hk, objGet]
      by_cases hk' : kv.1 = k'
      · simp [hk']
      · simp [hk', ih]

theorem objGet_eq_none_iff {κ α : Type} [DecidableEq κ] (m : List (κ × α)) (k : κ) :
    objGet m k = none ↔ k ∉ m.map Prod.fst := by
  induction m with
  | nil => simp [objGet]
  | cons kv rest ih =>
    by_cases h : kv.1 = k
    · simp [objGet, h]
    · have h2 : ¬ k = kv.1 := fun hh => h hh.symm
      simp [objGet, h, ih, h2]

theorem objGet_map_snd {κ α β : Type} [DecidableEq κ] (f : α → β) (m : List (κ × α)) (k : κ) :
    objGet (m.map (fun kv => (kv.1, f kv.2))) k = (objGet m k).map f := by
  induction m with
  | nil => simp [objGet]
  | cons kv rest ih =>
    by_cases h : kv.1 = k <;> simp [objGet, h, ih]

theorem keys_objSet {κ α : Type} [DecidableEq κ] (m : List (κ × α)) (k : κ) (v : α) :
    (objSet m k v).map Prod.fst =
      if k ∈ m.map Prod.fst then m.map Prod.fst else m.map Prod.fst ++ [k] := by
  induction m with
  | nil => simp [objSet]
  | cons kv rest ih =>
    by_cases h : kv.1 = k
    · simp [objSet, h]
    · by_cases hm : k ∈ rest.map Prod.fst <;>
        simp [objSet, h, ih, hm, Ne.symm h]

theorem keys_objSet_nodup {κ α : Type} [DecidableEq κ] (m : List (κ × α)) (k : κ) (v : α)
    (h : (m.map Prod.fst).Nodup) : ((objSet m k v).map Prod.fst).Nodup := by
  rw [keys_objSet]
  by_cases hm : k ∈ m.map Prod.fst
  · simpa [hm] using h
  · simp only [hm, if_false]
    refine List.Nodup.append h (List.nodup_singleton k) ?_
    intro a ha hb
    rw [List.mem_singleton] at hb
    subst hb
    exact hm ha

theorem objEq_of_pointwise {κ α : Type} [DecidableEq κ] :
    ∀ (m₁ m₂ : List (κ × α)), m₁.map Prod.fst = m₂.map Prod.fst →
      (m₁.map Prod.fst).Nodup → (∀ k, objGet m₁ k = objGet m₂ k) → m₁ = m₂
  | [], [], _, _, _ => rfl
  | [], kv :: rest, hk, _, _ => by simp at hk
  | kv :: rest, [], hk, _, _ => by simp at hk
  | kv₁ :: rest₁, kv₂ :: rest₂, hk, hn, hp => by
    have hfst : kv₁.1 = kv₂.1 := by simpa using congrArg List.head? hk
    have hv : kv₁.2 = kv₂.2 := by
      have hh := hp kv₁.1
      simp [objGet, hfst] at hh
      exact hh
    have hknotin : kv₁.1 ∉ rest₁.map Prod.fst := by
      simp only [List.map_cons, List.nodup_cons] at hn
      exact hn.1
    have htl : rest₁.map Prod.fst = rest₂.map Prod.fst := by
      simpa using congrArg List.tail hk
    have hrestp : ∀ k, objGet rest₁ k = objGet rest₂ k := by
      intro k
      by_cases hkk : k = kv₁.1
      · have h₁ : objGet rest₁ k = none :=
          (objGet_eq_none_iff rest₁ k).2 (by rw [hkk]; exact hknotin)
        have h₂ : objGet rest₂ k = none :=
          (objGet_eq_none_iff rest₂ k).2 (by rw [hkk, ← htl]; exact hknotin)
        rw [h₁, h₂]
      · have hne₁ : ¬ kv₁.1 = k := fun hh => hkk hh.symm
        have hne₂ : ¬ kv₂.1 = k := fun hh => hkk (hfst ▸ hh.symm)
        have hpk := hp k
        simp only [objGet, if_neg hne₁, if_neg hne₂] at hpk
        exact hpk
    have hrest : rest₁ = rest₂ :=
      objEq_of_pointwise rest₁ rest₂ htl
        (by simp only [List.map_cons, List.nodup_cons] at hn; exact hn.2) hrestp
    have hkv : kv₁ = kv₂ := by
      cases kv₁
      cases kv₂
      simp_all
    rw [hkv, hrest]

/-! ## Build text generation (claim C7) -/

theorem generateDockerfileStep_eq (acc : String) (d : Directive) :
    generateDockerfileStep acc d = acc ++ dockerfileLine d := by
  unfold generateDockerfileStep dockerfileLine
  by_cases h1 : d.cmd = "FROM"
  · simp [h1, String.append_assoc]
  by_cases h2 : d.cmd = "RUN"
  · simp [h1, h2, String.append_assoc]
  by_cases h3 : d.cmd = "COPY"
  · simp [h1, h2, h3, String.append_assoc]
  by_cases h4 : d.cmd = "ENTRYPOINT"
  · simp [h1, h2, h3, h4, String.append_assoc]
  by_cases h5 : d.cmd = "CMD"
  · simp [h1, h2, h3, h4, h5, String.append_assoc]
  by_cases h6 : d.cmd = "WORKDIR"
  · simp [h1, h2, h3, h4, h5, h6, String.append_assoc]
  by_cases h7 : d.cmd = "USER"
  · simp [h1, h2, h3, h4, h5, h6, h7, String.append_assoc]
  by_cases h8 : d.cmd = "ENV"
  · simp [h1, h2, h3, h4, h5, h6, h7, h8, String.append_assoc]
  by_cases h9 : d.cmd = "ADD"
  · simp [h1, h2, h3, h4, h5, h6, h7, h8, h9, String.append_assoc]
  by_cases h10 : d.cmd = "TEST"
  · by_cases h11 : matchesTestForm d.raw <;>
      simp [h1, h2, h3, h4, h5, h6, h7, h8, h9, h10, h11, String.append_assoc]
  · simp [h1, h2, h3, h4, h5, h6, h7, h8, h9, h10]

theorem concatAll_go :
    ∀ (l : List String) (acc : String),
      l.foldl (fun a b => a ++ b) acc = acc ++ concatAll l
  | [], acc => by simp [concatAll]
  | s :: l, acc => by
    have h1 := concatAll_go l (acc ++ s)
    have h2 := concatAll_go l ("" ++ s)
    have hc : concatAll (s :: l) = s ++ concatAll l := by
      show (s :: l).foldl (fun a b => a ++ b) "" = _
      rw [List.foldl_cons, h2]
      simp
    rw [List.foldl_cons, h1, hc, String.append_assoc]

theorem generateDockerfile_go :
    ∀ (ds : List Directive) (acc : String),
      ds.foldl generateDockerfileStep acc = acc ++ concatAll (ds.map dockerfileLine)
  | [], acc => by simp [concatAll]
  | d :: ds, acc => by
    rw [List.foldl_cons, generateDockerfileStep_eq, generateDockerfile_go ds,
      List.map_cons]
    have hc : concatAll (dockerfileLine d :: ds.map dockerfileLine)
        = dockerfileLine d ++ concatAll (ds.map dockerfileLine) := by
      show (dockerfileLine d :: ds.map dockerfileLine).foldl (fun a b => a ++ b) "" = _
      rw [List.foldl_cons, concatAll_go (ds.map dockerfileLine)]
      simp
    rw [hc, String.append_assoc]

/-- C7: build text generation passes through the raw text of FROM, RUN, COPY,
ADD, ENTRYPOINT, CMD, WORKDIR, USER and ENV directives verbatim in directive
order, and a TEST directive is rewritten to CMD and included exactly when its
raw text has the two-field form "TEST args"; any other TEST line (and any
other command) contributes nothing: the generated build text is the
concatenation, in directive order, of each directive's `dockerfileLine`. -/
theorem generateDockerfile_passthrough (ds : List Directive) :
    generateDockerfile ds = concatAll (ds.map dockerfileLine) := by
  have h := generateDockerfile_go ds ""
  simpa [generateDockerfile] using h

/-! ## Component type legality (claims C10, C3) and the watch engine
(claims C1, C2, C9) -/

/-- C10: Component.validate is total only under the precondition that the
declared type is service, task or static: a component whose first directive
declares any other type string makes the legality check dereference an
undefined entry of the types table, so validate throws a TypeError
(`JSOutcome.thrown`) instead of reporting a ComponentError through the
callback. -/
theorem componentValidate_throws_on_unknown_type (ds : List Directive) (root : String)
    (bs : BuildState) (d₀ : Directive) (t : String)
    (hhead : ds.head? = some d₀) (htype : d₀.params.type = some t)
    (hnot : t ∉ ["service", "task", "static"]) :
    Component.validate (mkComponent ds root) bs = JSOutcome.thrown := by
  have h1 : t ≠ "service" := by intro hh; exact hnot (by simp [hh])
  have h2 : t ≠ "task" := by intro hh; exact hnot (by simp [hh])
  have h3 : t ≠ "static" := by intro hh; exact hnot (by simp [hh])
  cases ds with
  | nil => simp at hhead
  | cons d rest =>
    have hd : d = d₀ := by simpa using hhead
    subst hd
    have hctype : (mkComponent (d :: rest) root).type = some t := by
      simp [mkComponent, htype]
    have htab : typesAllowedDirectives (mkComponent (d :: rest) root).type = none := by
      rw [hctype]
      simp [typesAllowedDirectives, h1, h2, h3]
    have hdirs : ¬ (mkComponent (d :: rest) root).directives = [] := by
      intro hh
      exact List.noConfusion hh
    simp only [Component.validate, htab, if_neg hdirs]

/-- Witness for C10 at a concrete component of type "worker". -/
theorem componentValidate_throws_on_unknown_type_witness :
    Component.validate
      (mkComponent
        [{ cmd := "COMPONENT", args := ["w", "worker"],
           params := { name := some "w", type := some "worker" },
           raw := "COMPONENT w worker", file := "/r/Noopfile", lineNumber := 1 }] "/r")
      { resources := [], routes := [] } = JSOutcome.thrown :=
  componentValidate_throws_on_unknown_type _ "/r" _ _ "worker" rfl rfl (by decide)

/-- C2 (counterexample to the claim as stated): the watch path does NOT emit
manifestChange for every event on a recognized ignore filename regardless of
scope patterns — chokidar's `ignored` predicate (checkIgnoreStatus) exempts
only Noopfile, so a .gitignore path that matches no watch scope (here:
/app/api/.gitignore, reaching only the /app/web scope) is suppressed before
the handler and the composed watch path emits nothing at all. -/
theorem manifestChange_suppressed_for_ignore_file :
    baseName "/app/api/.gitignore" = ".gitignore" ∧
    exWatchApp.checkIgnoreStatus "/app/api/.gitignore" = true ∧
    watchEmitsFor exWatchApp "/app/api/.gitignore" = [] := by
  refine ⟨?_, ?_, ?_⟩ <;> decide

/-- C2 (amended): a filesystem event on a path whose base name is Noopfile
always yields exactly manifestChange, regardless of the ignore-scope and
watch-scope tables (checkIgnoreStatus exempts Noopfile), provided the path is
not inside a .git directory; an event on a .gitignore or .dockerignore path
yields exactly manifestChange when chokidar delivers it (checkIgnoreStatus
false), but such paths are NOT exempt from scope filtering and can be
suppressed entirely; and no event on any of the three manifest-class
filenames ever yields a componentChange. -/
theorem manifestChange_amended (app : Application) (file : String) :
    (baseName file = "Noopfile" → jsIncludes "/.git/" file = false →
      watchEmitsFor app file = [WatchEmit.manifestChange file]) ∧
    ((baseName file = ".gitignore" ∨ baseName file = ".dockerignore") →
      app.checkIgnoreStatus file = false →
      watchEmitsFor app file = [WatchEmit.manifestChange file]) ∧
    ((baseName file = "Noopfile" ∨ baseName file = ".gitignore" ∨
        baseName file = ".dockerignore") →
      ∀ cn f, WatchEmit.componentChange cn f ∉ watchEmitsFor app file) := by
  have hhandler : (baseName file = "Noopfile" ∨ baseName file = ".gitignore" ∨
      baseName file = ".dockerignore") →
      handleWatchEvent app file = [WatchEmit.manifestChange file] := by
    intro h
    unfold handleWatchEvent
    rw [if_pos h]
  refine ⟨?_, ?_, ?_⟩
  · intro hb hgit
    have hcheck : app.checkIgnoreStatus file = false := by
      unfold Application.checkIgnoreStatus
      rw [if_neg (by simp [hgit]), if_pos (Or.inr hb)]
    unfold watchEmitsFor
    rw [if_neg (by simp [hcheck])]
    exact hhandler (Or.inl hb)
  · intro hb hcheck
    unfold watchEmitsFor
    rw [if_neg (by simp [hcheck])]
    exact hhandler (Or.inr hb)
  · intro hb cn f
    unfold watchEmitsFor
    by_cases hc : app.checkIgnoreStatus file = true
    · rw [if_pos hc]
      simp
    · rw [if_neg hc, hhandler hb]
      simp

/-- Witness for C2 (amended): under the root-`*.log`-ignore, blanket-watch
application, a Noopfile event and a delivered .dockerignore event each emit
exactly manifestChange, and the .dockerignore event yields no
componentChange. -/
theorem manifestChange_amended_witness :
    watchEmitsFor exIgnoreApp "/app/sub/Noopfile"
        = [WatchEmit.manifestChange "/app/sub/Noopfile"] ∧
    watchEmitsFor exIgnoreApp "/app/sub/.dockerignore"
        = [WatchEmit.manifestChange "/app/sub/.dockerignore"] ∧
    WatchEmit.componentChange (some "A") "/app/sub/.dockerignore"
        ∉ watchEmitsFor exIgnoreApp "/app/sub/.dockerignore" :=
  ⟨(manifestChange_amended exIgnoreApp "/app/sub/Noopfile").1 (by decide) (by decide),
   (manifestChange_amended exIgnoreApp "/app/sub/.dockerignore").2.1 (by decide)
     (by decide),
   (manifestChange_amended exIgnoreApp "/app/sub/.dockerignore").2.2 (by decide)
     (some "A") "/app/sub/.dockerignore"⟩

/-- C9: ignore-scope exclusion takes precedence over watch-scope inclusion.
For every path that is not the root, not a manifest or recognized ignore
filename, and matches an exclusion pattern of an ignore scope whose directory
prefixes it, the watch path emits nothing at all — in particular no
componentChange — even when a blanket watch scope covers the path: chokidar's
`ignored` predicate (checkIgnoreStatus) consults ignore scopes before watch
scopes and suppresses the event. -/
theorem ignoreScope_precedes_watchScope (app : Application) (file : String)
    (hbase : baseName file ∉ ["Noopfile", ".gitignore", ".dockerignore"])
    (hroot : file ≠ app.rootPath)
    (hig : app.ignoring.any (fun kv =>
      decide (strIsPrefixOf (dirName kv.1 ++ "/") file ∧
        igIgnores kv.2 (strDrop file (strLength (dirName kv.1 ++ "/"))))) = true) :
    watchEmitsFor app file = [] ∧
      ∀ cn f, WatchEmit.componentChange cn f ∉ watchEmitsFor app file := by
  have hnoop : baseName file ≠ "Noopfile" := by
    intro hh; exact hbase (by simp [hh])
  have hcheck : app.checkIgnoreStatus file = true := by
    unfold Application.checkIgnoreStatus
    by_cases hgit : jsIncludes "/.git/" file
    · rw [if_pos hgit]
    · rw [if_neg hgit]
      have hcond : ¬ (file = app.rootPath ∨ baseName file = "Noopfile") := by
        rintro (hh | hh)
        · exact hroot hh
        · exact hnoop hh
      rw [if_neg hcond]
      rw [if_pos ?hpos]
      case hpos =>
        rw [List.any_eq_true] at hig
        obtain ⟨kv, hmem, hkv⟩ := hig
        rw [List.any_eq_true]
        exact ⟨kv, hmem, hkv⟩
  have heq : watchEmitsFor app file = [] := by
    unfold watchEmitsFor
    rw [if_pos hcheck]
  exact ⟨heq, by simp [heq]⟩

/-- Witness for C9: a root ignore file excluding `*.log` plus a blanket watch
scope still attributes nothing to debug.log. -/
theorem ignoreScope_precedes_watchScope_witness :
    watchEmitsFor exIgnoreApp "/app/debug.log" = [] ∧
      WatchEmit.componentChange (some "A") "/app/debug.log"
        ∉ watchEmitsFor exIgnoreApp "/app/debug.log" := by
  have h := ignoreScope_precedes_watchScope exIgnoreApp "/app/debug.log"
    (by decide) (by decide) (by decide)
  exact ⟨h.1, h.2 (some "A") "/app/debug.log"⟩

/-- C1 at the failing input: in the attribution scenario, component A (rooted
at /app/api, declaring only `ADD . .`) gets NO watch scope at all — the
`if (files.size)` guard of parseComponents drops the blanket-inclusion case —
so an event for /app/api/foo.txt is suppressed and attributed to no
component, where the spec requires componentChange for A.  Component B's
`ADD ./src ./src` scope is registered. -/
theorem parseComponents_drops_copyAll_only_component :
    objGet exWatchApp.watching "/app/api" = none ∧
    objGet exWatchApp.watching "/app/web" = some [(some "B", ["./src"])] ∧
    watchEmitsFor exWatchApp "/app/api/foo.txt" = [] ∧
    handleWatchEvent exWatchApp "/app/api/foo.txt" = [] := by
  refine ⟨?_, ?_, ?_, ?_⟩ <;> decide

/-! ## Resource registry (claims C4, C5, C6) -/

theorem objGet_some_mem {κ α : Type} [DecidableEq κ] {m : List (κ × α)} {k : κ} {r : α}
    (h : objGet m k = some r) : k ∈ m.map Prod.fst := by
  by_contra hm
  rw [← objGet_eq_none_iff] at hm
  rw [h] at hm
  exact Option.noConfusion hm

/-- C4: resource registration is idempotent by name across the whole graph.
The first RESOURCE directive for a name creates the Resource (named after the
directive, carrying its type and the directive itself); every later directive
with the same name and a consistent (or absent) type merges into the same
shared entry — the map gains no new key, the existing entry accrues the
directive, name and settings are untouched and the type is only filled in
when it was null — and it is that merged entry that is handed to the
callback; a directive whose type differs from the recorded one fails with a
ResourceError naming the resource and the recorded type. -/
theorem resourceRegister_idempotent_by_name
    (m : List (Option String × Resource)) (d : Directive) :
    (objGet m d.params.name = none →
      Resource.register m d =
        (objSet m d.params.name
          { name := d.params.name, type := d.params.type, settings := [], directives := [d] },
         .ok { name := d.params.name, type := d.params.type, settings := [], directives := [d] })) ∧
    (∀ r, objGet m d.params.name = some r →
      ((d.params.type = none ∨ r.type = none ∨ d.params.type = r.type) →
        Resource.register m d =
          (objSet m d.params.name
            { name := r.name, type := if r.type = none then d.params.type else r.type,
              settings := r.settings, directives := r.directives ++ [d] },
           .ok { name := r.name, type := if r.type = none then d.params.type else r.type,
                 settings := r.settings, directives := r.directives ++ [d] }) ∧
        (Resource.register m d).1.map Prod.fst = m.map Prod.fst) ∧
      (∀ t t', r.type = some t → d.params.type = some t' → t ≠ t' →
        (Resource.register m d).2 = .error (.resourceTypeConflict d.params.name (some t)))) := by
  constructor
  · intro hnone
    by_cases hdt : d.params.type = none
    · simp [Resource.register, registerMerge, hnone, hdt]
    · simp [Resource.register, registerMerge, hnone, hdt]
  · intro r hsome
    have hkeys : ∀ v : Resource,
        (objSet m d.params.name v).map Prod.fst = m.map Prod.fst := by
      intro v
      rw [keys_objSet]
      simp [objGet_some_mem hsome]
    constructor
    · intro hcons
      rcases hcons with hdt | hrt | heq
      · by_cases hrt : r.type = none
        · simp [Resource.register, registerMerge, hsome, hdt, hrt, hkeys]
        · simp [Resource.register, registerMerge, hsome, hdt, hrt, hkeys]
      · by_cases hdt : d.params.type = none
        · simp [Resource.register, registerMerge, hsome, hdt, hrt, hkeys]
        · simp [Resource.register, registerMerge, hsome, hdt, hrt, hkeys]
      · by_cases hrt : r.type = none
        · have hdt : d.params.type = none := heq.trans hrt
          simp [Resource.register, registerMerge, hsome, hdt, hrt, hkeys]
        · simp [Resource.register, registerMerge, hsome, hrt, heq, hkeys]
    · intro t t' hrt hdt hne
      simp [Resource.register, registerMerge, hsome, hrt, hdt, hne]

/-- Witness for C4: db is created by its first declaration, merged by a
same-name declaration without a type, and a postgresql redeclaration fails. -/
theorem resourceRegister_idempotent_by_name_witness :
    Resource.register [] exResDir1 = ([(some "db", exResDb)], .ok exResDb) ∧
    Resource.register exResMap exResDir2 =
      (objSet exResMap (some "db")
        { name := some "db", type := some "mysql", settings := [],
          directives := [exResDir1, exResDir2] },
       .ok { name := some "db", type := some "mysql", settings := [],
             directives := [exResDir1, exResDir2] }) ∧
    (Resource.register exResMap exResDirPg).2 =
      .error (.resourceTypeConflict (some "db") (some "mysql")) := by
  refine ⟨?_, ?_, ?_⟩
  · exact (resourceRegister_idempotent_by_name [] exResDir1).1 rfl
  · have h := (((resourceRegister_idempotent_by_name exResMap exResDir2).2 exResDb rfl).1
      (Or.inl rfl)).1
    simpa [exResDb] using h
  · exact ((resourceRegister_idempotent_by_name exResMap exResDirPg).2 exResDb rfl).2
      "mysql" "postgresql" rfl rfl (by decide)

/-- C6: resource setting accumulation is first-write-wins.  For a
`setting=key=value` payload parsing to (key, value): if the recorded value
for key equals value, the settings map is unchanged; if a different value is
already recorded (and truthy), the map is also unchanged and the
first-recorded value stays in place — the conflict is only a diagnostic
(`console.log`), never an error: applySetting has no failure outcome at
all. -/
theorem settingAccumulation_first_write_wins (props : List SettingSchema)
    (settings : List (String × String)) (s key value : String)
    (hparse : parseSettingKV s = some (key, value)) :
    (objGet settings key = some value → applySetting props settings s = settings) ∧
    (∀ w, objGet settings key = some w → w ≠ value → w ≠ "" →
      applySetting props settings s = settings ∧
        objGet (applySetting props settings s) key = some w) := by
  constructor
  · intro hrec
    by_cases hk : props.any (fun sch => sch.key = key)
    · simp [applySetting, hparse, hk, hrec]
    · simp [applySetting, hparse, hk]
  · intro w hrec hne hnz
    by_cases hk : props.any (fun sch => sch.key = key)
    · have hnv : ¬ objGet settings key = some value := by
        rw [hrec]
        simp [hne]
      have heq : applySetting props settings s = settings := by
        simp [applySetting, hparse, hk, hnv, hrec, jsTruthy, hnz]
      exact ⟨heq, by rw [heq, hrec]⟩
    · have heq : applySetting props settings s = settings := by
        simp [applySetting, hparse, hk]
      exact ⟨heq, by rw [heq, hrec]⟩

/-- Witness for C6 on the dynamodb hashKeyName key: re-declaring the same
value is a no-op, and a conflicting declaration keeps the first value. -/
theorem settingAccumulation_first_write_wins_witness :
    applySetting [{ key := "hashKeyName", required := true }]
        [("hashKeyName", "id")] "hashKeyName=id" = [("hashKeyName", "id")] ∧
    applySetting [{ key := "hashKeyName", required := true }]
        [("hashKeyName", "id")] "hashKeyName=other" = [("hashKeyName", "id")] ∧
    objGet (applySetting [{ key := "hashKeyName", required := true }]
        [("hashKeyName", "id")] "hashKeyName=other") "hashKeyName" = some "id" := by
  have h1 := (settingAccumulation_first_write_wins
    [{ key := "hashKeyName", required := true }]
    [("hashKeyName", "id")] "hashKeyName=id" "hashKeyName" "id" (by decide)).1 (by decide)
  have h2 := (settingAccumulation_first_write_wins
    [{ key := "hashKeyName", required := true }]
    [("hashKeyName", "id")] "hashKeyName=other" "hashKeyName" "other" (by decide)).2
    "id" (by decide) (by decide) (by decide)
  exact ⟨h1, h2.1, h2.2⟩

/-- Reduction of Resource.validate for a known resource type: settings merge
persists on the resource and the first schema error (if any) is reported. -/
theorem resourceValidate_eq (r : Resource) (props : List SettingSchema)
    (hprops : resourceTypesSettings r.type = some props) (hrt : ¬ r.type = none) :
    Resource.validate r =
      ({ r with settings := mergeDirectiveSettings props r.directives r.settings },
       (props.filterMap (resourceSettingCheck
         (mergeDirectiveSettings props r.directives r.settings) r.name)).head?) := by
  simp only [Resource.validate, hprops, if_neg hrt]

/-- C5: resource validation enforces the type's schema after all
contributing directives are merged (the merged settings are exactly
`(Resource.validate r).1.settings`).  For a dynamodb (document-kv) resource:
a falsy hash-key name fails naming "hashKeyName"; a present hash-key name
with a falsy hash-key type fails naming "hashKeyType"; a hash-key type
outside {S,N,B} fails with an invalid-value error naming the value; valid
required settings (with any rangeKeyType also in the enum) succeed.  A
resource with no type at all fails with the unknown-type ResourceError. -/
theorem resourceValidate_dynamodb_schema (r : Resource) :
    (r.type = some "dynamodb" →
      ((jsTruthy (objGet (Resource.validate r).1.settings "hashKeyName") = false →
          (Resource.validate r).2 = some (.resourceMissingSetting "hashKeyName" r.name)) ∧
       (jsTruthy (objGet (Resource.validate r).1.settings "hashKeyName") = true →
         jsTruthy (objGet (Resource.validate r).1.settings "hashKeyType") = false →
          (Resource.validate r).2 = some (.resourceMissingSetting "hashKeyType" r.name)) ∧
       (∀ v, jsTruthy (objGet (Resource.validate r).1.settings "hashKeyName") = true →
          objGet (Resource.validate r).1.settings "hashKeyType" = some v → v ≠ "" →
          v ∉ ["S", "N", "B"] →
          (Resource.validate r).2 = some (.resourceInvalidValue v "hashKeyType")) ∧
       (∀ v, jsTruthy (objGet (Resource.validate r).1.settings "hashKeyName") = true →
          objGet (Resource.validate r).1.settings "hashKeyType" = some v →
          v ∈ ["S", "N", "B"] →
          (∀ w, objGet (Resource.validate r).1.settings "rangeKeyType" = some w →
            w = "" ∨ w ∈ ["S", "N", "B"]) →
          (Resource.validate r).2 = none))) ∧
    (r.type = none → (Resource.validate r).2 = some (.resourceUnknownType none)) := by
  constructor
  · intro htype
    have hrt : ¬ r.type = none := by rw [htype]; simp
    have hprops : resourceTypesSettings r.type =
        some [{ key := "hashKeyName", required := true },
              { key := "hashKeyType", required := true, enumVals := some ["S", "N", "B"] },
              { key := "rangeKeyName" },
              { key := "rangeKeyType", enumVals := some ["S", "N", "B"] }] := by
      rw [htype]
      rfl
    have hval := resourceValidate_eq r _ hprops hrt
    rw [hval]
    set S := mergeDirectiveSettings
      [{ key := "hashKeyName", required := true },
       { key := "hashKeyType", required := true, enumVals := some ["S", "N", "B"] },
       { key := "rangeKeyName" },
       { key := "rangeKeyType", enumVals := some ["S", "N", "B"] }] r.directives r.settings
      with hS
    refine ⟨?_, ?_, ?_, ?_⟩
    · intro h1
      simp only [List.filterMap_cons, List.filterMap_nil, resourceSettingCheck, h1] at h1 ⊢
      simp
    · intro h1 h2
      simp only [List.filterMap_cons, List.filterMap_nil, resourceSettingCheck, h1, h2] at h2 ⊢
      simp
    · intro v h1 h2 h3 h4
      simp only [List.filterMap_cons, List.filterMap_nil, resourceSettingCheck, h1, h2] at h2 ⊢
      simp [jsTruthy, h3, h4]
    · intro v h1 h2 h3 h4
      have hvz : v ≠ "" := by
        intro hh
        rw [hh] at h3
        simp at h3
      simp only [List.filterMap_cons, List.filterMap_nil, resourceSettingCheck, h1, h2] at h2 ⊢
      rcases hw : objGet S "rangeKeyType" with _ | w
      · simp [jsTruthy, hvz, h3, hw]
      · rcases h4 w hw with hww | hww <;> simp [jsTruthy, hvz, h3, hw, hww]
  · intro htype
    simp only [Resource.validate, htype, resourceTypesSettings]

/-- Witness for C5: a dynamodb resource with no settings fails naming
hashKeyName; hashKeyType "X" fails with invalid-value; a resource whose
valid settings arrive through its contributing directive succeeds; a
type-less resource fails with a ResourceError. -/
theorem resourceValidate_dynamodb_schema_witness :
    (Resource.validate exDynMissing).2 =
      some (.resourceMissingSetting "hashKeyName" (some "t")) ∧
    (Resource.validate exDynInvalid).2 = some (.resourceInvalidValue "X" "hashKeyType") ∧
    (Resource.validate exDynOk).2 = none ∧
    (Resource.validate exNoTypeResource).2 = some (.resourceUnknownType none) := by
  refine ⟨?_, ?_, ?_, ?_⟩
  · exact ((resourceValidate_dynamodb_schema exDynMissing).1 rfl).1 (by decide)
  · exact ((resourceValidate_dynamodb_schema exDynInvalid).1 rfl).2.2.1 "X"
      (by decide) (by decide) (by decide) (by decide)
  · refine ((resourceValidate_dynamodb_schema exDynOk).1 rfl).2.2.2 "S"
      (by decide) (by decide) (by decide) ?_
    intro w hw
    have hnone : objGet (Resource.validate exDynOk).1.settings "rangeKeyType" = none := by
      decide
    rw [hnone] at hw
    exact Option.noConfusion hw
  · exact (resourceValidate_dynamodb_schema exNoTypeResource).2 rfl

/-- Counterexample to C3 as stated: a service component whose directives are
all in the service allowed set (COMPONENT, RESOURCE, RESOURCE) nevertheless
fails validation, because its two RESOURCE directives declare the same name
with different types and the resource-registration stage of validate reports
the conflict. -/
theorem componentValidate_legal_but_fails :
    typesAllowedDirectives exConflictComponent.type =
      some ["ROUTE", "RESOURCE", "ENV", "SPECIAL", "EXPOSE", "FROM", "COPY", "ADD",
            "RUN", "WORKDIR", "ENTRYPOINT", "CMD", "USER", "CPU", "MEMORY"] ∧
    (∀ d ∈ exConflictComponent.directives,
      d.cmd ∈ ["ROUTE", "RESOURCE", "ENV", "SPECIAL", "EXPOSE", "FROM", "COPY", "ADD",
               "RUN", "WORKDIR", "ENTRYPOINT", "CMD", "USER", "CPU", "MEMORY"] ∨
        d.cmd = "COMPONENT") ∧
    Component.validate exConflictComponent { resources := [], routes := [] } =
      .value (.error (.resourceTypeConflict (some "db") (some "mysql"))) := by
  refine ⟨rfl, by decide, by rfl⟩

/-- C3 (amended): for a component of a declared type in the types table,
validate succeeds when every directive's command is in the type's allowed set
(COMPONENT always tolerated) AND its RESOURCE registrations succeed (no
resource type conflict); and when at least one directive's command is outside
the set, validate fails with a ComponentError identifying the first such
directive's command, the component type and the directive's file and line,
without reaching the route/resource build stage. -/
theorem componentValidate_legality (c : Component) (bs : BuildState) (allowed : List String)
    (htab : typesAllowedDirectives c.type = some allowed) :
    ((∀ d ∈ c.directives, d.cmd ∈ allowed ∨ d.cmd = "COMPONENT") →
      ∀ m, registerResources (c.directives.filter (fun d => d.cmd = "RESOURCE")) bs.resources
          = .ok m →
        Component.validate c bs = .value (.ok (componentUpdate c,
          { resources := m, routes := bs.routes ++ routesOf (componentUpdate c) }))) ∧
    (∀ pre d post, c.directives = pre ++ d :: post →
      (∀ d' ∈ pre, ¬ violatesLegality allowed d' = true) →
      violatesLegality allowed d = true →
      Component.validate c bs =
        .value (.error (.componentError d.cmd c.type d.file d.lineNumber))) := by
  constructor
  · intro hall m hm
    have hfilter : c.directives.filter (violatesLegality allowed) = [] := by
      rw [List.filter_eq_nil_iff]
      intro d hd
      rcases hall d hd with h | h
      · simp [violatesLegality, h]
      · simp [violatesLegality, h]
    have hdir : (componentUpdate c).directives = c.directives := rfl
    have hbuild : buildRoutesAndResources (componentUpdate c) bs =
        .ok (componentUpdate c,
          { resources := m, routes := bs.routes ++ routesOf (componentUpdate c) }) := by
      unfold buildRoutesAndResources
      rw [hdir, hm]
    simp only [Component.validate, htab, hfilter, List.head?, hbuild]
  · intro pre d post hds hpre hd
    have hfilter : c.directives.filter (violatesLegality allowed)
        = d :: post.filter (violatesLegality allowed) := by
      rw [hds, List.filter_append, List.filter_eq_nil_iff.2 hpre,
        List.filter_cons_of_pos hd, List.nil_append]
    simp only [Component.validate, htab, hfilter, List.head?]

/-- Witness for C3's amended statement: a bare legal service component
validates; adding a LIFECYCLE directive (not allowed for service) makes
validation fail naming LIFECYCLE at its file and line. -/
theorem componentValidate_legality_witness :
    Component.validate exLegalComponent { resources := [], routes := [] } =
      .value (.ok (componentUpdate exLegalComponent,
        { resources := [], routes := routesOf (componentUpdate exLegalComponent) })) ∧
    Component.validate exIllegalComponent { resources := [], routes := [] } =
      .value (.error (.componentError "LIFECYCLE" (some "service") "/a/Noopfile" 2)) := by
  constructor
  · have h := (componentValidate_legality exLegalComponent
      { resources := [], routes := [] } _ rfl).1 (by decide) [] rfl
    simpa using h
  · have h := (componentValidate_legality exIllegalComponent
      { resources := [], routes := [] } _ rfl).2
      [{ cmd := "COMPONENT", args := ["api", "service"],
         params := { name := some "api", type := some "service" },
         raw := "COMPONENT api service", file := "/a/Noopfile", lineNumber := 1 }]
      { cmd := "LIFECYCLE", args := ["build"],
        params := { lifecycle := some "build" },
        raw := "LIFECYCLE build", file := "/a/Noopfile", lineNumber := 2 }
      [] rfl (by decide) (by decide)
    simpa using h

/-! ## Repeated discovery (claim C8) -/

/-- Counterexample to C8 as stated: discovering the same unchanged tree
twice without a reload leaves the resource "db" with its contributing
directive recorded twice — `app.resources` persists across discover calls
and Resource.register pushes the directive onto the shared object again —
so the two graphs' resources do not have pairwise equal contributing
directives. -/
theorem discover_twice_duplicates_resource_directives :
    Application.discover {} exTree = .ok exRun1 ∧
    exRun1.discover exTree = .ok exRun2 ∧
    (objGet exRun1.resources (some "db")).map (fun r => r.directives.length) = some 1 ∧
    (objGet exRun2.resources (some "db")).map (fun r => r.directives.length) = some 2 ∧
    ¬ (objGet exRun2.resources (some "db")).map Resource.directives
        = (objGet exRun1.resources (some "db")).map Resource.directives := by
  refine ⟨rfl, rfl, rfl, rfl, by decide⟩

theorem lastWrite_eq_none_iff {κ α : Type} [DecidableEq κ] :
    ∀ (pairs : List (κ × α)) (k : κ), lastWrite pairs k = none ↔ k ∉ pairs.map Prod.fst
  | [], k => by simp [lastWrite]
  | kv :: rest, k => by
    have ih := lastWrite_eq_none_iff rest k
    simp only [lastWrite]
    rcases h : lastWrite rest k with _ | v
    · have hnot : k ∉ rest.map Prod.fst := ih.1 h
      by_cases hk : kv.1 = k
      · simp [hk, hnot]
      · have hk2 : ¬ k = kv.1 := fun hh => hk hh.symm
        simp [hk, hnot, hk2]
    · have hmem : k ∈ rest.map Prod.fst := by
        by_contra hnot
        rw [← ih] at hnot
        rw [h] at hnot
        exact Option.noConfusion hnot
      simp [hmem]

theorem objGet_objSetAll {κ α : Type} [DecidableEq κ] :
    ∀ (pairs m : List (κ × α)) (k : κ),
      objGet (objSetAll m pairs) k =
        match lastWrite pairs k with
        | some v => some v
        | none => objGet m k
  | [], m, k => by simp [objSetAll, lastWrite]
  | kv :: rest, m, k => by
    have ih := objGet_objSetAll rest (objSet m kv.1 kv.2) k
    have hfold : objSetAll m (kv :: rest) = objSetAll (objSet m kv.1 kv.2) rest := by
      simp [objSetAll]
    rw [hfold, ih]
    rcases h : lastWrite rest k with _ | v
    · simp only [lastWrite, h]
      by_cases hk : kv.1 = k
      · subst hk
        simp [objGet_objSet_self]
      · have hk2 : k ≠ kv.1 := fun hh => hk hh.symm
        simp [hk, objGet_objSet_ne m kv.1 k kv.2 hk2]
    · simp [lastWrite, h]

theorem keys_objSetAll_mem {κ α : Type} [DecidableEq κ] :
    ∀ (pairs m : List (κ × α)) (k : κ), k ∈ m.map Prod.fst →
      k ∈ (objSetAll m pairs).map Prod.fst
  | [], _, _, h => by simpa [objSetAll] using h
  | kv :: rest, m, k, h => by
    have hfold : objSetAll m (kv :: rest) = objSetAll (objSet m kv.1 kv.2) rest := by
      simp [objSetAll]
    rw [hfold]
    have hmem : k ∈ (objSet m kv.1 kv.2).map Prod.fst := by
      rw [keys_objSet]
      by_cases hm : kv.1 ∈ m.map Prod.fst
      · rw [if_pos hm]
        exact h
      · rw [if_neg hm]
        exact List.mem_append.2 (Or.inl h)
    exact keys_objSetAll_mem rest _ k hmem

theorem keys_objSetAll_of_written {κ α : Type} [DecidableEq κ] :
    ∀ (pairs m : List (κ × α)) (k : κ), k ∈ pairs.map Prod.fst →
      k ∈ (objSetAll m pairs).map Prod.fst
  | [], _, _, h => by simp at h
  | kv :: rest, m, k, h => by
    have hfold : objSetAll m (kv :: rest) = objSetAll (objSet m kv.1 kv.2) rest := by
      simp [objSetAll]
    rw [hfold]
    rw [List.map_cons] at h
    rcases List.mem_cons.1 h with hk | hk
    · have hmem : k ∈ (objSet m kv.1 kv.2).map Prod.fst := by
        rw [keys_objSet]
        by_cases hm : kv.1 ∈ m.map Prod.fst
        · rw [if_pos hm]
          exact hk ▸ hm
        · rw [if_neg hm]
          refine List.mem_append.2 (Or.inr ?_)
          rw [hk]
          exact List.mem_singleton.2 rfl
      exact keys_objSetAll_mem rest _ k hmem
    · exact keys_objSetAll_of_written rest _ k hk

theorem keys_objSetAll_sub {κ α : Type} [DecidableEq κ] :
    ∀ (pairs m : List (κ × α)) (k : κ), k ∈ (objSetAll m pairs).map Prod.fst →
      k ∈ m.map Prod.fst ∨ k ∈ pairs.map Prod.fst
  | [], _, _, h => Or.inl (by simpa [objSetAll] using h)
  | kv :: rest, m, k, h => by
    have hfold : objSetAll m (kv :: rest) = objSetAll (objSet m kv.1 kv.2) rest := by
      simp [objSetAll]
    rw [hfold] at h
    rcases keys_objSetAll_sub rest _ k h with hm | hr
    · rw [keys_objSet] at hm
      by_cases hmm : kv.1 ∈ m.map Prod.fst
      · rw [if_pos hmm] at hm
        exact Or.inl hm
      · rw [if_neg hmm] at hm
        rcases List.mem_append.1 hm with hm1 | hm1
        · exact Or.inl hm1
        · rw [List.mem_singleton] at hm1
          right
          rw [List.map_cons, hm1]
          exact List.mem_cons_self kv.1 _
    · right
      rw [List.map_cons]
      exact List.mem_cons_of_mem _ hr

theorem keys_objSetAll_preserved {κ α : Type} [DecidableEq κ] :
    ∀ (pairs m : List (κ × α)), (∀ p ∈ pairs, p.1 ∈ m.map Prod.fst) →
      (objSetAll m pairs).map Prod.fst = m.map Prod.fst
  | [], m, _ => by simp [objSetAll]
  | kv :: rest, m, h => by
    have hfold : objSetAll m (kv :: rest) = objSetAll (objSet m kv.1 kv.2) rest := by
      simp [objSetAll]
    have hkv : kv.1 ∈ m.map Prod.fst := h kv (List.mem_cons_self kv rest)
    have hkeys : (objSet m kv.1 kv.2).map Prod.fst = m.map Prod.fst := by
      rw [keys_objSet, if_pos hkv]
    rw [hfold, keys_objSetAll_preserved rest (objSet m kv.1 kv.2)
      (fun p hp => by rw [hkeys]; exact h p (List.mem_cons_of_mem kv hp)), hkeys]

theorem keys_objSetAll_nodup {κ α : Type} [DecidableEq κ] :
    ∀ (pairs m : List (κ × α)), (m.map Prod.fst).Nodup →
      ((objSetAll m pairs).map Prod.fst).Nodup
  | [], m, h => by simpa [objSetAll] using h
  | kv :: rest, m, h => by
    have hfold : objSetAll m (kv :: rest) = objSetAll (objSet m kv.1 kv.2) rest := by
      simp [objSetAll]
    rw [hfold]
    exact keys_objSetAll_nodup rest _ (keys_objSet_nodup m kv.1 kv.2 h)

theorem componentUpdate_directives (c : Component) :
    (componentUpdate c).directives = c.directives := rfl

theorem buildRoutesAndResources_ok_elim (c : Component) (bs : BuildState)
    (c' : Component) (bs' : BuildState)
    (h : buildRoutesAndResources c bs = .ok (c', bs')) :
    c' = c ∧
    registerResources (c.directives.filter (fun d => d.cmd = "RESOURCE")) bs.resources
      = .ok bs'.resources ∧
    bs'.routes = bs.routes ++ routesOf c := by
  unfold buildRoutesAndResources at h
  rcases hr : registerResources (c.directives.filter (fun d => d.cmd = "RESOURCE")) bs.resources
      with e | m
  · rw [hr] at h
    exact absurd h (by simp)
  · rw [hr] at h
    simp only [Except.ok.injEq, Prod.mk.injEq] at h
    obtain ⟨hc, hbs⟩ := h
    refine ⟨hc.symm, ?_, ?_⟩
    · rw [← hbs]
    · rw [← hbs]

theorem componentValidate_of_tab_some (c : Component) (bs : BuildState)
    (allowed : List String) (htab : typesAllowedDirectives c.type = some allowed) :
    Component.validate c bs =
      match (c.directives.filter (violatesLegality allowed)).head? with
      | some d => .value (.error (.componentError d.cmd c.type d.file d.lineNumber))
      | none => .value (buildRoutesAndResources (componentUpdate c) bs) := by
  unfold Component.validate
  rw [htab]

theorem componentValidate_ok_elim (c : Component) (bs : BuildState)
    (c' : Component) (bs' : BuildState)
    (h : Component.validate c bs = .value (.ok (c', bs'))) :
    c' = componentUpdate c ∧
    registerResources (c.directives.filter (fun d => d.cmd = "RESOURCE")) bs.resources
      = .ok bs'.resources ∧
    bs'.routes = bs.routes ++ routesOf c := by
  rcases htab : typesAllowedDirectives c.type with _ | allowed
  · unfold Component.validate at h
    rw [htab] at h
    by_cases hnil : c.directives = []
    · rw [if_pos hnil] at h
      simp only [JSOutcome.value.injEq] at h
      have hb := buildRoutesAndResources_ok_elim _ _ _ _ h
      rw [componentUpdate_directives] at hb
      exact ⟨hb.1, hb.2.1, by rw [hb.2.2]; rfl⟩
    · rw [if_neg hnil] at h
      exact absurd h (by simp)
  · rw [componentValidate_of_tab_some c bs allowed htab] at h
    rcases hf : (c.directives.filter (violatesLegality allowed)).head? with _ | d
    · rw [hf] at h
      simp only [JSOutcome.value.injEq] at h
      have hb := buildRoutesAndResources_ok_elim _ _ _ _ h
      rw [componentUpdate_directives] at hb
      exact ⟨hb.1, hb.2.1, by rw [hb.2.2]; rfl⟩
    · rw [hf] at h
      simp at h

theorem routesOf_componentUpdate (c : Component) :
    routesOf (componentUpdate c) = routesOf c := by
  unfold routesOf
  rw [componentUpdate_directives]
  rfl

theorem registerResources_append :
    ∀ (l₁ l₂ : List Directive) (m : List (Option String × Resource)),
      registerResources (l₁ ++ l₂) m =
        match registerResources l₁ m with
        | .ok m₁ => registerResources l₂ m₁
        | .error e => .error e
  | [], l₂, m => by simp [registerResources]
  | d :: l₁, l₂, m => by
    simp only [List.cons_append, registerResources]
    rcases Resource.register m d with ⟨m', r⟩
    rcases r with e | r
    · rfl
    · exact registerResources_append l₁ l₂ m'

theorem resourceStream_cons (kv : Option String × Component)
    (rest : List (Option String × Component)) :
    resourceStream (kv :: rest) =
      kv.2.directives.filter (fun d => d.cmd = "RESOURCE") ++ resourceStream rest := by
  simp [resourceStream]

theorem validateComponents_ok_elim :
    ∀ (list : List (Option String × Component)) (bs : BuildState)
      (out : List (Option String × Component) × BuildState),
      validateComponents list bs = .ok out →
      out.1 = list.map (fun kv => (kv.1, componentUpdate kv.2)) ∧
      registerResources (resourceStream list) bs.resources = .ok out.2.resources
  | [], bs, out, h => by
    simp only [validateComponents, Except.ok.injEq] at h
    subst h
    simp [resourceStream, registerResources]
  | (k, c) :: rest, bs, out, h => by
    simp only [validateComponents] at h
    rcases hv : Component.validate c bs with _ | ev
    · rw [hv] at h
      exact absurd h (by simp)
    · rw [hv] at h
      rcases ev with e | ⟨c', bs'⟩
      · exact absurd h (by simp)
      · simp only [] at h
        rcases hrec : validateComponents rest bs' with f | ⟨rest', bs''⟩
        · rw [hrec] at h
          exact absurd h (by simp)
        · rw [hrec] at h
          simp only [Except.ok.injEq] at h
          subst h
          have hev := componentValidate_ok_elim c bs c' bs' hv
          have hih := validateComponents_ok_elim rest bs' (rest', bs'') hrec
          constructor
          · simp only [List.map_cons]
            rw [← hih.1, hev.1]
          · rw [resourceStream_cons, registerResources_append]
            simp only [hev.2.1]
            exact hih.2

theorem validateResources_ok_elim :
    ∀ (list out : List (Option String × Resource)),
      validateResources list = .ok out →
      out = list.map (fun kv => (kv.1, (Resource.validate kv.2).1)) ∧
      ∀ kv ∈ list, (Resource.validate kv.2).2 = none
  | [], out, h => by
    simp only [validateResources, Except.ok.injEq] at h
    subst h
    simp
  | (k, r) :: rest, out, h => by
    simp only [validateResources] at h
    rcases hv : Resource.validate r with ⟨r', e⟩
    rw [hv] at h
    rcases e with _ | e
    · rcases hrec : validateResources rest with f | rest'
      · rw [hrec] at h
        exact absurd h (by simp)
      · rw [hrec] at h
        simp only [Except.ok.injEq] at h
        subst h
        have hih := validateResources_ok_elim rest rest' hrec
        constructor
        · simp only [List.map_cons, hv, ← hih.1]
        · intro kv hkv
          rcases List.mem_cons.1 hkv with hkv | hkv
          · rw [hkv]
            simp [hv]
          · exact hih.2 kv hkv
    · exact absurd h (by simp)


theorem registerOneName_cons (d : Directive) (L : List Directive) (x : Option Resource)
    (r' : Resource) (h : registerOneName [d] x = .ok (some r')) :
    registerOneName (d :: L) x = registerOneName L (some r') := by
  unfold registerOneName at h ⊢
  by_cases hc1 : (registerMerge x d).type = none ∧ ¬ d.params.type = none
  · simp only [if_pos hc1] at h ⊢
    simp only [registerOneName, Except.ok.injEq, Option.some.injEq] at h
    rw [h]
    cases L <;> rfl
  · simp only [if_neg hc1] at h ⊢
    by_cases hc2 : ¬ (registerMerge x d).type = none ∧ ¬ d.params.type = none ∧
        ¬ (registerMerge x d).type = d.params.type
    · simp only [if_pos hc2] at h
      exact absurd h (by simp)
    · simp only [if_neg hc2] at h ⊢
      simp only [registerOneName, Except.ok.injEq, Option.some.injEq] at h
      rw [h]
      cases L <;> rfl

theorem register_effect (m : List (Option String × Resource)) (d : Directive) :
    (∀ k, ¬ d.params.name = k →
      objGet (Resource.register m d).1 k = objGet m k) ∧
    (∀ r', (Resource.register m d).2 = .ok r' →
      objGet (Resource.register m d).1 d.params.name = some r' ∧
      registerOneName [d] (objGet m d.params.name) = .ok (some r')) ∧
    (∀ e, (Resource.register m d).2 = .error e →
      registerOneName [d] (objGet m d.params.name) = .error e) := by
  by_cases hc1 : (registerMerge (objGet m d.params.name) d).type = none ∧
      ¬ d.params.type = none
  · have hreg : Resource.register m d =
        (objSet m d.params.name
          { registerMerge (objGet m d.params.name) d with type := d.params.type },
         .ok { registerMerge (objGet m d.params.name) d with type := d.params.type }) := by
      unfold Resource.register
      rw [if_pos hc1]
    refine ⟨?_, ?_, ?_⟩
    · intro k hk
      rw [hreg]
      exact objGet_objSet_ne m d.params.name k _ (fun hh => hk hh.symm)
    · intro r' hr'
      rw [hreg] at hr' ⊢
      simp only [Except.ok.injEq] at hr'
      subst hr'
      refine ⟨objGet_objSet_self _ _ _, ?_⟩
      unfold registerOneName
      rw [if_pos hc1]
      rfl
    · intro e he
      rw [hreg] at he
      exact absurd he (by simp)
  · by_cases hc2 : ¬ (registerMerge (objGet m d.params.name) d).type = none ∧
        ¬ d.params.type = none ∧
        ¬ (registerMerge (objGet m d.params.name) d).type = d.params.type
    · have hreg : Resource.register m d =
          (objSet m d.params.name (registerMerge (objGet m d.params.name) d),
           .error (.resourceTypeConflict d.params.name
             (registerMerge (objGet m d.params.name) d).type)) := by
        unfold Resource.register
        rw [if_neg hc1, if_pos hc2]
      refine ⟨?_, ?_, ?_⟩
      · intro k hk
        rw [hreg]
        exact objGet_objSet_ne m d.params.name k _ (fun hh => hk hh.symm)
      · intro r' hr'
        rw [hreg] at hr'
        exact absurd hr' (by simp)
      · intro e he
        rw [hreg] at he
        simp only [Except.error.injEq] at he
        subst he
        unfold registerOneName
        rw [if_neg hc1, if_pos hc2]
    · have hreg : Resource.register m d =
          (objSet m d.params.name (registerMerge (objGet m d.params.name) d),
           .ok (registerMerge (objGet m d.params.name) d)) := by
        unfold Resource.register
        rw [if_neg hc1, if_neg hc2]
      refine ⟨?_, ?_, ?_⟩
      · intro k hk
        rw [hreg]
        exact objGet_objSet_ne m d.params.name k _ (fun hh => hk hh.symm)
      · intro r' hr'
        rw [hreg] at hr' ⊢
        simp only [Except.ok.injEq] at hr'
        subst hr'
        refine ⟨objGet_objSet_self _ _ _, ?_⟩
        unfold registerOneName
        rw [if_neg hc1, if_neg hc2]
        rfl
      · intro e he
        rw [hreg] at he
        exact absurd he (by simp)

theorem registerResources_objGet :
    ∀ (ds : List Directive) (m m' : List (Option String × Resource)),
      registerResources ds m = .ok m' → ∀ k,
      registerOneName (ds.filter (fun d => d.params.name = k)) (objGet m k)
        = .ok (objGet m' k)
  | [], m, m', h, k => by
    simp only [registerResources, Except.ok.injEq] at h
    subst h
    simp [registerOneName]
  | d :: ds, m, m', h, k => by
    simp only [registerResources] at h
    rcases hreg : Resource.register m d with ⟨m₁, res⟩
    rw [hreg] at h
    rcases res with e | r'
    · exact absurd h (by simp)
    · simp only [] at h
      have heff := register_effect m d
      have hok : (Resource.register m d).2 = .ok r' := by rw [hreg]
      have hm₁ : (Resource.register m d).1 = m₁ := by rw [hreg]
      have hih := registerResources_objGet ds m₁ m' h
      by_cases hk : d.params.name = k
      · have hfilter : (d :: ds).filter (fun d' => d'.params.name = k)
            = d :: ds.filter (fun d' => d'.params.name = k) :=
          List.filter_cons_of_pos (by simp [hk])
        rw [hfilter]
        have h2 := (heff.2.1 r' hok).2
        rw [hk] at h2
        rw [registerOneName_cons d _ (objGet m k) r' h2]
        have h1 : objGet m₁ k = some r' := by
          rw [← hm₁, ← hk]
          exact (heff.2.1 r' hok).1
        rw [← h1]
        exact hih k
      · have hfilter : (d :: ds).filter (fun d' => d'.params.name = k)
            = ds.filter (fun d' => d'.params.name = k) :=
          List.filter_cons_of_neg (by simp [hk])
        rw [hfilter]
        have h1 : objGet m₁ k = objGet m k := by
          rw [← hm₁]
          exact heff.1 k hk
        rw [← h1]
        exact hih k

theorem registerOneName_some :
    ∀ (ds : List Directive) (r : Resource) (out : Option Resource),
      registerOneName ds (some r) = .ok out →
      out = some { name := r.name,
                   type := match r.type with
                           | some t => some t
                           | none => firstDirectiveType ds,
                   settings := r.settings,
                   directives := r.directives ++ ds }
  | [], r, out, h => by
    obtain ⟨n, t, s, dd⟩ := r
    simp only [registerOneName, Except.ok.injEq] at h
    subst h
    cases t <;> simp [firstDirectiveType]
  | d :: rest, r, out, h => by
    obtain ⟨n, t, s, dd⟩ := r
    unfold registerOneName at h
    simp only [registerMerge, Option.getD_some] at h
    rcases t with _ | t0
    · rcases hdp : d.params.type with _ | t2
      · rw [hdp] at h
        rw [if_neg (by simp), if_neg (by simp)] at h
        have hih := registerOneName_some rest _ out h
        rw [hih]
        simp [firstDirectiveType, hdp, List.append_assoc]
      · rw [hdp] at h
        rw [if_pos (by simp)] at h
        have hih := registerOneName_some rest _ out h
        rw [hih]
        simp [firstDirectiveType, hdp, List.append_assoc]
    · rcases hdp : d.params.type with _ | t2
      · rw [hdp] at h
        rw [if_neg (by simp), if_neg (by simp)] at h
        have hih := registerOneName_some rest _ out h
        rw [hih]
        simp [List.append_assoc]
      · by_cases he : t0 = t2
        · subst he
          rw [hdp] at h
          rw [if_neg (by simp), if_neg (by simp)] at h
          have hih := registerOneName_some rest _ out h
          rw [hih]
          simp [List.append_assoc]
        · rw [hdp] at h
          rw [if_neg (by simp), if_pos (by simp [he])] at h
          exact absurd h (by simp)

theorem registerOneName_none_cons (d : Directive) (ds : List Directive)
    (out : Option Resource)
    (h : registerOneName (d :: ds) none = .ok out) :
    out = some { name := d.params.name, type := firstDirectiveType (d :: ds),
                 settings := [], directives := d :: ds } := by
  unfold registerOneName at h
  simp only [registerMerge, Option.getD_none] at h
  rcases hdp : d.params.type with _ | t'
  · rw [hdp] at h
    rw [if_neg (by simp), if_neg (by simp)] at h
    have hih := registerOneName_some ds _ out h
    rw [hih]
    simp [firstDirectiveType, hdp]
  · rw [hdp] at h
    rw [if_pos (by simp)] at h
    have hih := registerOneName_some ds _ out h
    rw [hih]
    simp [firstDirectiveType, hdp]


theorem parseSettingKV_nonempty (s key value : String)
    (h : parseSettingKV s = some (key, value)) : key ≠ "" ∧ value ≠ "" := by
  unfold parseSettingKV at h
  rcases hsp : (splitOnChar '=' s.toList).reverse with _ | ⟨v, ks⟩
  · rw [hsp] at h
    exact absurd h (by simp)
  · rcases ks with _ | ⟨k1, ks⟩
    · rw [hsp] at h
      exact absurd h (by simp)
    · rw [hsp] at h
      simp only [] at h
      by_cases hz : joinWithChar '=' (k1 :: ks).reverse = [] ∨ v = []
      · rw [if_pos hz] at h
        exact absurd h (by simp)
      · rw [if_neg hz] at h
        simp only [Option.some.injEq, Prod.mk.injEq] at h
        push_neg at hz
        constructor
        · rw [← h.1]
          intro hh
          exact hz.1 (by simpa [String.ext_iff] using hh)
        · rw [← h.2]
          intro hh
          exact hz.2 (by simpa [String.ext_iff] using hh)

theorem objGet_some_of_mem {κ α : Type} [DecidableEq κ] {m : List (κ × α)} {k : κ}
    (h : k ∈ m.map Prod.fst) : ∃ v, objGet m k = some v := by
  rcases hobj : objGet m k with _ | v
  · rw [objGet_eq_none_iff] at hobj
    exact absurd h hobj
  · exact ⟨v, rfl⟩

theorem applySetting_keys_mono (props : List SettingSchema)
    (st : List (String × String)) (s : String) (k : String)
    (h : k ∈ st.map Prod.fst) : k ∈ (applySetting props st s).map Prod.fst := by
  rcases hp : parseSettingKV s with _ | ⟨key, value⟩
  · simp only [applySetting, hp]
    exact h
  · simp only [applySetting, hp]
    by_cases hk : props.any (fun sch => sch.key = key) = true
    · rw [if_neg (by simp [hk])]
      by_cases he : objGet st key = some value
      · rw [if_pos he]
        exact h
      · rw [if_neg he]
        by_cases ht : jsTruthy (objGet st key) = true
        · rw [if_pos (by simpa using ht)]
          exact h
        · rw [if_neg (by simpa using ht), keys_objSet]
          by_cases hm : key ∈ st.map Prod.fst
          · rw [if_pos hm]
            exact h
          · rw [if_neg hm]
            exact List.mem_append.2 (Or.inl h)
    · rw [if_pos (by simpa using hk)]
      exact h

theorem applySetting_covers (props : List SettingSchema)
    (st : List (String × String)) (s key value : String)
    (hp : parseSettingKV s = some (key, value))
    (hk : props.any (fun sch => sch.key = key) = true) :
    key ∈ (applySetting props st s).map Prod.fst := by
  simp only [applySetting, hp]
  rw [if_neg (by simp [hk])]
  by_cases he : objGet st key = some value
  · rw [if_pos he]
    exact objGet_some_mem he
  · rw [if_neg he]
    by_cases ht : jsTruthy (objGet st key) = true
    · rw [if_pos (by simpa using ht)]
      rcases hobj : objGet st key with _ | w
      · rw [hobj] at ht
        simp [jsTruthy] at ht
      · exact objGet_some_mem hobj
    · rw [if_neg (by simpa using ht), keys_objSet]
      by_cases hm : key ∈ st.map Prod.fst
      · rw [if_pos hm]
        exact hm
      · rw [if_neg hm]
        exact List.mem_append.2 (Or.inr (List.mem_singleton.2 rfl))

theorem applySetting_noop (props : List SettingSchema)
    (st : List (String × String)) (s : String)
    (h : ∀ key value, parseSettingKV s = some (key, value) →
      props.any (fun sch => sch.key = key) = true →
      ∃ w, objGet st key = some w ∧ w ≠ "") :
    applySetting props st s = st := by
  rcases hp : parseSettingKV s with _ | ⟨key, value⟩
  · simp only [applySetting, hp]
  · simp only [applySetting, hp]
    by_cases hk : props.any (fun sch => sch.key = key) = true
    · rw [if_neg (by simp [hk])]
      obtain ⟨w, hw, hwz⟩ := h key value hp hk
      by_cases he : objGet st key = some value
      · rw [if_pos he]
      · rw [if_neg he, if_pos (by rw [hw]; simpa [jsTruthy] using hwz)]
    · rw [if_pos (by simpa using hk)]

theorem applySetting_values (props : List SettingSchema)
    (st : List (String × String)) (s : String)
    (h : ∀ k v, objGet st k = some v → v ≠ "") :
    ∀ k v, objGet (applySetting props st s) k = some v → v ≠ "" := by
  intro k v hv
  rcases hp : parseSettingKV s with _ | ⟨key, value⟩
  · simp only [applySetting, hp] at hv
    exact h k v hv
  · simp only [applySetting, hp] at hv
    by_cases hk : props.any (fun sch => sch.key = key) = true
    · rw [if_neg (by simp [hk])] at hv
      by_cases he : objGet st key = some value
      · rw [if_pos he] at hv
        exact h k v hv
      · rw [if_neg he] at hv
        by_cases ht : jsTruthy (objGet st key) = true
        · rw [if_pos (by simpa using ht)] at hv
          exact h k v hv
        · rw [if_neg (by simpa using ht)] at hv
          by_cases hkk : key = k
          · subst hkk
            rw [objGet_objSet_self] at hv
            simp only [Option.some.injEq] at hv
            rw [← hv]
            exact (parseSettingKV_nonempty s key value hp).2
          · rw [objGet_objSet_ne st key k value (fun hh => hkk hh.symm)] at hv
            exact h k v hv
    · rw [if_pos (by simpa using hk)] at hv
      exact h k v hv

theorem foldlApply_keys_mono :
    ∀ (ss : List String) (props : List SettingSchema) (st : List (String × String)) (k : String),
      k ∈ st.map Prod.fst → k ∈ (ss.foldl (applySetting props) st).map Prod.fst
  | [], _, _, _, h => h
  | s :: ss, props, st, k, h => by
    rw [List.foldl_cons]
    exact foldlApply_keys_mono ss props _ k (applySetting_keys_mono props st s k h)

theorem foldlApply_covers :
    ∀ (ss : List String) (props : List SettingSchema) (st : List (String × String))
      (s key value : String), s ∈ ss → parseSettingKV s = some (key, value) →
      props.any (fun sch => sch.key = key) = true →
      key ∈ (ss.foldl (applySetting props) st).map Prod.fst
  | [], _, _, _, _, _, hmem, _, _ => absurd hmem (List.not_mem_nil _)
  | s0 :: ss, props, st, s, key, value, hmem, hp, hk => by
    rw [List.foldl_cons]
    rcases List.mem_cons.1 hmem with hs | hs
    · subst hs
      exact foldlApply_keys_mono ss props _ key (applySetting_covers props st s key value hp hk)
    · exact foldlApply_covers ss props _ s key value hs hp hk

theorem foldlApply_noop :
    ∀ (ss : List String) (props : List SettingSchema) (st : List (String × String)),
      (∀ s ∈ ss, ∀ key value, parseSettingKV s = some (key, value) →
        props.any (fun sch => sch.key = key) = true →
        ∃ w, objGet st key = some w ∧ w ≠ "") →
      ss.foldl (applySetting props) st = st
  | [], _, _, _ => rfl
  | s0 :: ss, props, st, h => by
    have h0 : applySetting props st s0 = st :=
      applySetting_noop props st s0 (h s0 (List.mem_cons_self s0 ss))
    rw [List.foldl_cons, h0]
    exact foldlApply_noop ss props st (fun s hs => h s (List.mem_cons_of_mem s0 hs))

theorem foldlApply_values :
    ∀ (ss : List String) (props : List SettingSchema) (st : List (String × String)),
      (∀ k v, objGet st k = some v → v ≠ "") →
      ∀ k v, objGet (ss.foldl (applySetting props) st) k = some v → v ≠ ""
  | [], _, _, h => h
  | s0 :: ss, props, st, h => by
    rw [List.foldl_cons]
    exact foldlApply_values ss props _ (applySetting_values props st s0 h)

theorem merge_keys_mono (props : List SettingSchema) :
    ∀ (ds : List Directive) (st : List (String × String)) (k : String),
      k ∈ st.map Prod.fst → k ∈ (mergeDirectiveSettings props ds st).map Prod.fst
  | [], _, _, h => h
  | d :: ds, st, k, h => by
    simp only [mergeDirectiveSettings, List.foldl_cons]
    exact merge_keys_mono props ds _ k (foldlApply_keys_mono d.params.setting props st k h)

theorem merge_covers (props : List SettingSchema) :
    ∀ (ds : List Directive) (st : List (String × String)) (d : Directive)
      (s key value : String), d ∈ ds → s ∈ d.params.setting →
      parseSettingKV s = some (key, value) →
      props.any (fun sch => sch.key = key) = true →
      key ∈ (mergeDirectiveSettings props ds st).map Prod.fst
  | [], _, _, _, _, _, hmem, _, _, _ => absurd hmem (List.not_mem_nil _)
  | d0 :: ds, st, d, s, key, value, hmem, hs, hp, hk => by
    simp only [mergeDirectiveSettings, List.foldl_cons]
    rcases List.mem_cons.1 hmem with hd | hd
    · subst hd
      exact merge_keys_mono props ds _ key
        (foldlApply_covers d.params.setting props st s key value hs hp hk)
    · exact merge_covers props ds _ d s key value hd hs hp hk

theorem merge_noop (props : List SettingSchema) :
    ∀ (ds : List Directive) (st : List (String × String)),
      (∀ d ∈ ds, ∀ s ∈ d.params.setting, ∀ key value,
        parseSettingKV s = some (key, value) →
        props.any (fun sch => sch.key = key) = true →
        ∃ w, objGet st key = some w ∧ w ≠ "") →
      mergeDirectiveSettings props ds st = st
  | [], _, _ => rfl
  | d0 :: ds, st, h => by
    have h0 : d0.params.setting.foldl (applySetting props) st = st :=
      foldlApply_noop d0.params.setting props st (h d0 (List.mem_cons_self d0 ds))
    simp only [mergeDirectiveSettings, List.foldl_cons, h0]
    exact merge_noop props ds st (fun d hd => h d (List.mem_cons_of_mem d0 hd))

theorem merge_values (props : List SettingSchema) :
    ∀ (ds : List Directive) (st : List (String × String)),
      (∀ k v, objGet st k = some v → v ≠ "") →
      ∀ k v, objGet (mergeDirectiveSettings props ds st) k = some v → v ≠ ""
  | [], _, h => h
  | d0 :: ds, st, h => by
    simp only [mergeDirectiveSettings, List.foldl_cons]
    exact merge_values props ds _ (foldlApply_values d0.params.setting props st h)

theorem merge_idem (props : List SettingSchema) (ds : List Directive)
    (st : List (String × String)) (hst : ∀ k v, objGet st k = some v → v ≠ "") :
    mergeDirectiveSettings props ds (mergeDirectiveSettings props ds st)
      = mergeDirectiveSettings props ds st := by
  apply merge_noop
  intro d hd s hs key value hp hk
  have hmem : key ∈ (mergeDirectiveSettings props ds st).map Prod.fst :=
    merge_covers props ds st d s key value hd hs hp hk
  obtain ⟨w, hw⟩ := objGet_some_of_mem hmem
  exact ⟨w, hw, merge_values props ds st hst key w hw⟩

theorem merge_append (props : List SettingSchema) (l₁ l₂ : List Directive)
    (st : List (String × String)) :
    mergeDirectiveSettings props (l₁ ++ l₂) st
      = mergeDirectiveSettings props l₂ (mergeDirectiveSettings props l₁ st) := by
  simp [mergeDirectiveSettings, List.foldl_append]

theorem objGet_mem {κ α : Type} [DecidableEq κ] :
    ∀ (m : List (κ × α)) (k : κ) (v : α), objGet m k = some v → (k, v) ∈ m
  | [], _, _, h => by simp [objGet] at h
  | kv :: rest, k, v, h => by
    obtain ⟨k0, v0⟩ := kv
    simp only [objGet] at h
    by_cases hk : k0 = k
    · rw [if_pos (by simpa using hk)] at h
      simp only [Option.some.injEq] at h
      subst hk
      subst h
      exact List.mem_cons_self _ _
    · rw [if_neg (by simpa using hk)] at h
      exact List.mem_cons_of_mem _ (objGet_mem rest k v h)

theorem map_pair_fst {κ α β : Type} (f : α → β) (l : List (κ × α)) :
    (l.map (fun kv => (kv.1, f kv.2))).map Prod.fst = l.map Prod.fst := by
  induction l with
  | nil => rfl
  | cons kv rest ih => simp [ih]

theorem resourceValidate_none_elim (r : Resource) (h : (Resource.validate r).2 = none) :
    ∃ props, resourceTypesSettings r.type = some props ∧ ¬ r.type = none ∧
      (Resource.validate r).1 =
        { r with settings := mergeDirectiveSettings props r.directives r.settings } := by
  rcases hprops : resourceTypesSettings r.type with _ | props
  · unfold Resource.validate at h
    rw [hprops] at h
    simp at h
  · have hrt : ¬ r.type = none := by
      intro hh
      rw [hh] at hprops
      simp [resourceTypesSettings] at hprops
    refine ⟨props, rfl, hrt, ?_⟩
    rw [resourceValidate_eq r props hprops hrt]

theorem discover_ok_elim (app : Application) (tree : List ManifestInput) (s : Application)
    (h : app.discover tree = .ok s) :
    ∃ comps bs res,
      validateComponents (objSetAll app.components (blockPairs tree))
        { resources := app.resources, routes := app.routes } = .ok (comps, bs) ∧
      validateResources bs.resources = .ok res ∧
      s.components = comps ∧ s.resources = res := by
  unfold Application.discover at h
  simp only [] at h
  rcases hv : validateComponents (parseManifests tree app).components
      { resources := (parseManifests tree app).resources,
        routes := (parseManifests tree app).routes } with f | ⟨comps, bs⟩
  · rw [hv] at h
    exact absurd h (by simp)
  · rw [hv] at h
    simp only [] at h
    rcases hr : validateResources bs.resources with f | res
    · rw [hr] at h
      exact absurd h (by simp)
    · rw [hr] at h
      simp only [Except.ok.injEq] at h
      refine ⟨comps, bs, res, hv, hr, ?_, ?_⟩
      · rw [← h]
      · rw [← h]


/-- C8 (amended): running discover() twice on an unchanged manifest tree,
without an intervening reload(), yields graphs whose components are pairwise
equal; the resources keep pairwise equal names, types and settings, but each
resource's contributing-directives list in the second graph is the first
graph's list appended to itself (the graph-wide resource map is not reset by
discover, and Resource.register pushes every directive onto the persisted
shared object again). -/
theorem discover_twice_amended (tree : List ManifestInput) (s1 s2 : Application)
    (h1 : Application.discover {} tree = .ok s1)
    (h2 : s1.discover tree = .ok s2) :
    s2.components = s1.components ∧
    ∀ k, (objGet s2.resources k).map Resource.name
            = (objGet s1.resources k).map Resource.name ∧
         (objGet s2.resources k).map Resource.type
            = (objGet s1.resources k).map Resource.type ∧
         (objGet s2.resources k).map Resource.settings
            = (objGet s1.resources k).map Resource.settings ∧
         (objGet s2.resources k).map Resource.directives
            = (objGet s1.resources k).map (fun r => r.directives ++ r.directives) := by
  obtain ⟨comps1, bs1, res1, hv1, hr1, hsc1, hsr1⟩ := discover_ok_elim {} tree s1 h1
  obtain ⟨comps2, bs2, res2, hv2, hr2, hsc2, hsr2⟩ := discover_ok_elim s1 tree s2 h2
  have hv1' : validateComponents
      (objSetAll ([] : List (Option String × Component)) (blockPairs tree))
      { resources := [], routes := [] } = .ok (comps1, bs1) := hv1
  have hvc1 := validateComponents_ok_elim _ _ _ hv1'
  have hcomps1 : comps1 =
      (objSetAll ([] : List (Option String × Component)) (blockPairs tree)).map
        (fun kv => (kv.1, componentUpdate kv.2)) := hvc1.1
  have hrr1 : registerResources
      (resourceStream (objSetAll ([] : List (Option String × Component)) (blockPairs tree)))
      [] = .ok bs1.resources := hvc1.2
  have hvr1 := validateResources_ok_elim _ _ hr1
  have hkeysCP : ∀ p ∈ blockPairs tree,
      p.1 ∈ (objSetAll ([] : List (Option String × Component)) (blockPairs tree)).map
        Prod.fst := by
    intro p hp
    exact keys_objSetAll_of_written _ _ _ (List.mem_map_of_mem Prod.fst hp)
  have hs1keys : s1.components.map Prod.fst
      = (objSetAll ([] : List (Option String × Component)) (blockPairs tree)).map
          Prod.fst := by
    rw [hsc1, hcomps1, map_pair_fst]
  have hallkeys : ∀ p ∈ blockPairs tree, p.1 ∈ s1.components.map Prod.fst := by
    intro p hp
    rw [hs1keys]
    exact hkeysCP p hp
  have hstage2 : objSetAll s1.components (blockPairs tree)
      = objSetAll ([] : List (Option String × Component)) (blockPairs tree) := by
    apply objEq_of_pointwise
    · rw [keys_objSetAll_preserved _ s1.components hallkeys, hs1keys]
    · rw [keys_objSetAll_preserved _ s1.components hallkeys, hs1keys]
      exact keys_objSetAll_nodup _ [] (by simp)
    · intro k
      rw [objGet_objSetAll, objGet_objSetAll]
      rcases hlw : lastWrite (blockPairs tree) k with _ | v
      · simp only []
        have hknotin : k ∉ (blockPairs tree).map Prod.fst :=
          (lastWrite_eq_none_iff _ k).1 hlw
        have hnot1 : k ∉ s1.components.map Prod.fst := by
          rw [hs1keys]
          intro hmem
          rcases keys_objSetAll_sub _ _ _ hmem with hc | hc
          · simp at hc
          · exact hknotin hc
        rw [(objGet_eq_none_iff _ _).2 hnot1]
        simp [objGet]
      · simp only []
  have hv2' : validateComponents
      (objSetAll ([] : List (Option String × Component)) (blockPairs tree))
      { resources := s1.resources, routes := s1.routes } = .ok (comps2, bs2) := by
    rw [← hstage2]
    exact hv2
  have hvc2 := validateComponents_ok_elim _ _ _ hv2'
  have hcomps2 : comps2 =
      (objSetAll ([] : List (Option String × Component)) (blockPairs tree)).map
        (fun kv => (kv.1, componentUpdate kv.2)) := hvc2.1
  have hrr2 : registerResources
      (resourceStream (objSetAll ([] : List (Option String × Component)) (blockPairs tree)))
      s1.resources = .ok bs2.resources := hvc2.2
  have hvr2 := validateResources_ok_elim _ _ hr2
  have hcomps : s2.components = s1.components := by
    rw [hsc2, hsc1, hcomps2, hcomps1]
  refine ⟨hcomps, ?_⟩
  intro k
  have hreg1 := registerResources_objGet _ _ _ hrr1 k
  have hreg2 := registerResources_objGet _ _ _ hrr2 k
  have hs1res : objGet s1.resources k
      = (objGet bs1.resources k).map (fun r => (Resource.validate r).1) := by
    rw [hsr1, hvr1.1]
    exact objGet_map_snd (fun r => (Resource.validate r).1) bs1.resources k
  have hs2res : objGet s2.resources k
      = (objGet bs2.resources k).map (fun r => (Resource.validate r).1) := by
    rw [hsr2, hvr2.1]
    exact objGet_map_snd (fun r => (Resource.validate r).1) bs2.resources k
  rcases hL : (resourceStream
      (objSetAll ([] : List (Option String × Component)) (blockPairs tree))).filter
      (fun d => d.params.name = k) with _ | ⟨d0, L'⟩
  · rw [hL] at hreg1 hreg2
    simp only [registerOneName, objGet, Except.ok.injEq] at hreg1 hreg2
    have hbs1 : objGet bs1.resources k = none := hreg1.symm
    have hbs2 : objGet bs2.resources k = none := by
      rw [← hreg2, hs1res, hbs1]
      rfl
    rw [hs1res, hs2res, hbs1, hbs2]
    simp
  · rw [hL] at hreg1 hreg2
    have hreg1' : registerOneName (d0 :: L') none
        = .ok (objGet bs1.resources k) := hreg1
    have hr1k := registerOneName_none_cons d0 L' _ hreg1'
    rcases hT : firstDirectiveType (d0 :: L') with _ | t
    · rw [hT] at hr1k
      have hvnone : (Resource.validate
          { name := d0.params.name, type := (none : Option String),
            settings := [], directives := d0 :: L' }).2 = none :=
        hvr1.2 _ (objGet_mem _ _ _ hr1k)
      obtain ⟨props, hprops, hrt, hval1⟩ := resourceValidate_none_elim _ hvnone
      exact absurd rfl hrt
    · rw [hT] at hr1k
      have hvnone : (Resource.validate
          { name := d0.params.name, type := some t,
            settings := [], directives := d0 :: L' }).2 = none :=
        hvr1.2 _ (objGet_mem _ _ _ hr1k)
      obtain ⟨props, hprops, hrt, hval1⟩ := resourceValidate_none_elim _ hvnone
      have hval1' : (Resource.validate
          { name := d0.params.name, type := some t,
            settings := [], directives := d0 :: L' }).1
          = { name := d0.params.name, type := some t,
              settings := mergeDirectiveSettings props (d0 :: L') [],
              directives := d0 :: L' } := hval1
      have hm1 : objGet s1.resources k
          = some { name := d0.params.name, type := some t,
                   settings := mergeDirectiveSettings props (d0 :: L') [],
                   directives := d0 :: L' } := by
        rw [hs1res, hr1k]
        simp only [Option.map]
        rw [hval1']
      have hreg2' : registerOneName (d0 :: L')
          (some { name := d0.params.name, type := some t,
                  settings := mergeDirectiveSettings props (d0 :: L') [],
                  directives := d0 :: L' })
          = .ok (objGet bs2.resources k) := by
        rw [← hm1]
        exact hreg2
      have hr2k := registerOneName_some _ _ _ hreg2'
      have hr2k' : objGet bs2.resources k
          = some { name := d0.params.name, type := some t,
                   settings := mergeDirectiveSettings props (d0 :: L') [],
                   directives := (d0 :: L') ++ (d0 :: L') } := hr2k
      have hprops2 : resourceTypesSettings (some t) = some props := hprops
      have hval2 := resourceValidate_eq
        { name := d0.params.name, type := some t,
          settings := mergeDirectiveSettings props (d0 :: L') [],
          directives := (d0 :: L') ++ (d0 :: L') } props hprops2
        (by intro h; cases h)
      have hval2' : (Resource.validate
          { name := d0.params.name, type := some t,
            settings := mergeDirectiveSettings props (d0 :: L') [],
            directives := (d0 :: L') ++ (d0 :: L') }).1
          = { name := d0.params.name, type := some t,
              settings := mergeDirectiveSettings props ((d0 :: L') ++ (d0 :: L'))
                (mergeDirectiveSettings props (d0 :: L') []),
              directives := (d0 :: L') ++ (d0 :: L') } := by
        rw [hval2]
      have hvalues0 : ∀ (k0 : String) (v : String),
          objGet ([] : List (String × String)) k0 = some v → v ≠ "" := by
        intro k0 v hv
        simp [objGet] at hv
      have hidem : mergeDirectiveSettings props (d0 :: L')
          (mergeDirectiveSettings props (d0 :: L') [])
          = mergeDirectiveSettings props (d0 :: L') [] :=
        merge_idem props (d0 :: L') [] hvalues0
      have hmerge2 : mergeDirectiveSettings props ((d0 :: L') ++ (d0 :: L'))
          (mergeDirectiveSettings props (d0 :: L') [])
          = mergeDirectiveSettings props (d0 :: L') [] := by
        rw [merge_append, hidem]
        exact hidem
      have hm2 : objGet s2.resources k
          = some { name := d0.params.name, type := some t,
                   settings := mergeDirectiveSettings props (d0 :: L') [],
                   directives := (d0 :: L') ++ (d0 :: L') } := by
        rw [hs2res, hr2k']
        simp only [Option.map]
        rw [hval2', hmerge2]
      rw [hm1, hm2]
      exact ⟨rfl, rfl, rfl, rfl⟩

theorem discover_twice_amended_witness :
    Application.discover {} exTree = Except.ok exRun1 ∧
    exRun1.discover exTree = Except.ok exRun2 ∧
    exRun2.components = exRun1.components ∧
    (objGet exRun2.resources (some "db")).map Resource.directives
      = (objGet exRun1.resources (some "db")).map (fun r => r.directives ++ r.directives) :=
  ⟨rfl, rfl, (discover_twice_amended exTree exRun1 exRun2 rfl rfl).1,
   ((discover_twice_amended exTree exRun1 exRun2 rfl rfl).2 (some "db")).2.2.2⟩
